import Mathlib

/-!
Verification development for the dice-betting bot in `bot.py`.

The Python source keeps its state in four sqlite tables (`users`, `bets`,
`rounds`, `balance_logs`) plus a singleton `settings` row.  This file gives a
shallow embedding of that state as Lean structures and of the mutating
handlers (`start`, `process_bet`, `parse_bet`, `handle_dice`, `settle_bets`,
`cancel_bet`, `adjust_balance`, `deduct_by_username`, `clear_all_balances`)
as pure functions on the state, and proves the specification's claims about
them.

Modelling conventions, used throughout:
* A sqlite `SELECT ... LIMIT 1` / `fetchone` is `List.find?` on the table in
  row order; `UPDATE ... WHERE` is a `List.map` that rewrites matching rows;
  `INSERT` appends; an `INTEGER PRIMARY KEY` is an explicit counter.
* A handler that raises inside its `with get_db_connection()` block before
  `commit()` leaves the database unchanged (sqlite rolls the transaction
  back when the connection closes); such paths return the input state.
* Wall-clock readings (`datetime.now()`) are abstracted to opaque string
  parameters (`today`, `now`); `DATETIME` columns that no claim depends on
  are dropped.
* Python `re` matching for the two concrete bet regexes is implemented
  directly on `List Char` with the engine's leftmost, greedy, backtracking
  semantics.
-/

namespace ZuixinBot

/-! ## Character classes and numeric helpers (Python `\s`, `\d`, `int`, `str`) -/

/-- Python's `\s` class restricted to ASCII, as used by `str.strip`,
`re.sub(r'\s+', ' ', ...)` and the `\s*` separators in `parse_bet`. -/
def isSpaceChar (c : Char) : Bool :=
  c = ' ' || c = '\t' || c = '\n' || c = '\r' || c = '\x0b' || c = '\x0c'

/-- Python's `\d` class (ASCII digits). -/
def isDigitChar (c : Char) : Bool :=
  '0' ≤ c && c ≤ '9'

/-- `int(s)` on a nonempty all-digit string. -/
def digitsToNat (l : List Char) : Nat :=
  l.foldl (fun acc c => acc * 10 + (c.toNat - '0'.toNat)) 0

/-- `str(n)` for a natural number. -/
def natRepr (n : Nat) : String :=
  String.mk (Nat.toDigits 10 n)

/-- `str.zfill(3)`, used for the daily round sequence number. -/
def zfill3 (s : String) : String :=
  if s.length < 3 then String.mk (List.replicate (3 - s.length) '0') ++ s else s

/-- `text.strip()`. -/
def stripList (l : List Char) : List Char :=
  ((l.dropWhile isSpaceChar).reverse.dropWhile isSpaceChar).reverse

/-- `re.sub(r'\s+', ' ', ...)`: collapse every whitespace run to one space.
The flag records whether the previous character was whitespace (i.e. the
run's space has already been emitted). -/
def collapseWsAux : Bool → List Char → List Char
  | _, [] => []
  | prevSpace, c :: rest =>
    if isSpaceChar c then
      if prevSpace then collapseWsAux true rest
      else ' ' :: collapseWsAux true rest
    else c :: collapseWsAux false rest

/-- `re.sub(r'\s+', ' ', ...)` on a whole string. -/
def collapseWs (l : List Char) : List Char :=
  collapseWsAux false l

/-- `text.replace(pat, '')` for a pattern string: remove every (leftmost,
non-overlapping) occurrence of `pat`.  The scan consumes at least one
character per step, so `fuel = l.length` always suffices; the fuel argument
only makes the recursion structural. -/
def removeAllAux (pat : List Char) : Nat → List Char → List Char
  | 0, l => l
  | _ + 1, [] => []
  | fuel + 1, c :: rest =>
    if pat ≠ [] ∧ pat.isPrefixOf (c :: rest) then
      removeAllAux pat fuel ((c :: rest).drop pat.length)
    else c :: removeAllAux pat fuel rest

/-- `text.replace(pat, '')`. -/
def removeAll (pat l : List Char) : List Char :=
  removeAllAux pat l.length l

/-! ## `parse_bet` (bot.py lines 1002-1053)

First pass: `re.findall(r'(大单|大双|小单|小双|大|小|单|双|豹子)\s*(\d+)', t)`.
The regex engine scans left to right; at each position it tries the
alternatives in written order and, on success of `<kw>\s*\d+` (all three
парts greedy), emits the groups and resumes after the match; on failure it
advances one character. -/

/-- The keyword alternatives, in the regex's alternation order. -/
def kwAlternatives : List (List Char) :=
  ["大单".toList, "大双".toList, "小单".toList, "小双".toList,
   "大".toList, "小".toList, "单".toList, "双".toList, "豹子".toList]

/-- The compound keywords of the first regex group (bot.py line 1017). -/
def compoundKws : List (List Char) :=
  ["大单".toList, "大双".toList, "小单".toList, "小双".toList]

/-- Match the `\s*(\d+)` suffix of both bet regexes at the head of `rest`:
greedy whitespace, then a nonempty greedy digit group.  Returns the digit
group and the matched length. -/
def spDigits (rest : List Char) : Option (List Char × Nat) :=
  let sp := rest.takeWhile isSpaceChar
  let ds := (rest.drop sp.length).takeWhile isDigitChar
  if ds = [] then none else some (ds, sp.length + ds.length)

/-- Try to match `<kw>\s*(\d+)` at the head of `l` for each alternative in
order; returns the keyword, the digit group and the matched length. -/
def tryKw (l : List Char) : List (List Char) → Option (List Char × List Char × Nat)
  | [] => none
  | kw :: kws =>
    if kw.isPrefixOf l then
      match spDigits (l.drop kw.length) with
      | some (ds, m) => some (kw, ds, kw.length + m)
      | none => tryKw l kws
    else tryKw l kws

/-- `findall` for the first bet regex: list of `(keyword, digits)` group
pairs, in match order.  Every match consumes at least one character (each
alternative is nonempty), so `fuel = l.length` suffices. -/
def findKwAux : Nat → List Char → List (List Char × List Char)
  | 0, _ => []
  | _ + 1, [] => []
  | fuel + 1, c :: rest =>
    match tryKw (c :: rest) kwAlternatives with
    | some (kw, ds, n) => (kw, ds) :: findKwAux fuel ((c :: rest).drop n)
    | none => findKwAux fuel rest

/-- `findall` for the first bet regex. -/
def findKw (l : List Char) : List (List Char × List Char) :=
  findKwAux l.length l

/-! Second pass: `re.findall(r'(\d{1,2})\s*(\d+)', t)`.  At a position the
engine first tries the greedy two-digit reading of `\d{1,2}`; if no `\d+`
follows (after `\s*`) it backtracks to one digit. -/

/-- Try to match `(\d{1,2})\s*(\d+)` at the head of `l`; returns the two
digit groups and the matched length.  The one-digit reading of `\d{1,2}` is
the backtracking fallback of the greedy two-digit attempt. -/
def trySumAt : List Char → Option (List Char × List Char × Nat)
  | [] => none
  | d1 :: rest1 =>
    if isDigitChar d1 then
      match rest1 with
      | d2 :: rest2 =>
        if isDigitChar d2 then
          match spDigits rest2 with
          | some (ds, m) => some ([d1, d2], ds, 2 + m)
          | none =>
            match spDigits rest1 with
            | some (ds, m) => some ([d1], ds, 1 + m)
            | none => none
        else
          match spDigits rest1 with
          | some (ds, m) => some ([d1], ds, 1 + m)
          | none => none
      | [] =>
        match spDigits rest1 with
        | some (ds, m) => some ([d1], ds, 1 + m)
        | none => none
    else none

/-- `findall` for the sum-bet regex; every match consumes at least one
character, so `fuel = l.length` suffices. -/
def findSumAux : Nat → List Char → List (List Char × List Char)
  | 0, _ => []
  | _ + 1, [] => []
  | fuel + 1, c :: rest =>
    match trySumAt (c :: rest) with
    | some (g1, g2, n) => (g1, g2) :: findSumAux fuel ((c :: rest).drop n)
    | none => findSumAux fuel rest

/-- `findall` for the sum-bet regex. -/
def findSum (l : List Char) : List (List Char × List Char) :=
  findSumAux l.length l

/-- One parsed bet intent: `{'type': ..., 'value': ..., 'amount': ...}`. -/
structure PBet where
  ptype : String
  pvalue : String
  pamount : Nat
deriving DecidableEq

/-- Intents produced for one first-pass match: a compound keyword expands
into its size and parity halves at the same stake (bot.py 1017-1021). -/
def kwIntents (kw : List Char) (amount : Nat) : List PBet :=
  if kw ∈ compoundKws then
    match kw with
    | [a, b] => [⟨String.mk [a], "", amount⟩, ⟨String.mk [b], "", amount⟩]
    | _ => [⟨String.mk kw, "", amount⟩]
  else [⟨String.mk kw, "", amount⟩]

/-- The first-pass loop (bot.py 1010-1027): accumulate intents and remove
each matched span — both the unspaced and the one-space spelling — from the
working text. -/
def pass1Loop : List (List Char × List Char) → List PBet → List Char → List PBet × List Char
  | [], acc, txt => (acc, txt)
  | (kw, ds) :: ms, acc, txt =>
    let amount := digitsToNat ds
    let txt1 := removeAll (kw ++ ds) txt
    let txt2 := removeAll (kw ++ ' ' :: ds) txt1
    pass1Loop ms (acc ++ kwIntents kw amount) txt2

/-- The second-pass loop (bot.py 1033-1042): a sum intent for each match
whose leading number is in `[3, 18]`; its value is `str(sum_val)`. -/
def sumIntents (ms : List (List Char × List Char)) : List PBet :=
  ms.foldl (fun acc p =>
    let v := digitsToNat p.1
    if 3 ≤ v ∧ v ≤ 18 then acc ++ [⟨"和值", natRepr v, digitsToNat p.2⟩] else acc) []

/-- The dedup loop (bot.py 1045-1051): keep the first intent for each
`(type, value, amount)` key. -/
def dedupLoop : List PBet → List PBet → List PBet
  | [], _ => []
  | b :: rest, seen =>
    if b ∈ seen then dedupLoop rest seen else b :: dedupLoop rest (b :: seen)

/-- `parse_bet` (bot.py 1002-1053).  Returns `none` for Python's `None`
("no bets found"). -/
def parse_bet (text : String) : Option (List PBet) :=
  let clean := collapseWs (stripList text.toList)
  let p1 := pass1Loop (findKw clean) [] clean
  let ub := dedupLoop (p1.1 ++ sumIntents (findSum (stripList p1.2))) []
  if ub = [] then none else some ub

/-! ## Database state (the four sqlite tables and the settings row) -/

/-- A row of the `users` table.  `uid` is the `INTEGER PRIMARY KEY` column
`id`; `tgid` is the Telegram `user_id`. -/
structure UserR where
  uid : Nat
  tgid : Nat
  uname : Option String
  chat_id : Nat
  balance : Int
  is_admin : Bool
  is_super_admin : Bool
deriving DecidableEq

/-- A row of the `bets` table; `bid` is the `id` primary key. -/
structure BetR where
  bid : Nat
  user_id : Nat
  round_id : String
  bet_type : String
  bet_value : String
  amount : Nat
  status : String
  result : Option String
  payout : Nat
deriving DecidableEq

/-- A row of the `rounds` table.  `start_time` / `end_time` carry the opaque
time strings the handlers write; row order is insertion order, which within
a run coincides with `start_time` order. -/
structure RoundR where
  rid : String
  start_time : String
  end_time : Option String
  dice_result : Option String
  status : String
deriving DecidableEq

/-- A row of the append-only `balance_logs` table (its `id` and
`create_time` columns, which nothing reads back, are dropped). -/
structure LogR where
  user_id : Nat
  amount : Int
  ltype : String
  operator_id : Nat
deriving DecidableEq

/-- The singleton `settings` row. -/
structure SettingsR where
  min_bet : Nat
  max_bet : Nat
  max_size_odd_even_bets : Nat
  max_sum_bets : Nat
  max_leopard_bets : Nat
  odds_daxiao : Nat
  odds_hezhi : Nat
  odds_baozi : Nat
  betting_active : Bool
deriving DecidableEq

/-- The whole database.  `nextUserId` / `nextBetId` model the autoincrement
primary keys of `users` and `bets`. -/
structure DB where
  users : List UserR
  bets : List BetR
  rounds : List RoundR
  balance_logs : List LogR
  settings : SettingsR
  nextUserId : Nat
  nextBetId : Nat
deriving DecidableEq

/-- `SELECT ... FROM users WHERE user_id = ?` (first row). -/
def findUserByTg (st : DB) (tg : Nat) : Option UserR :=
  st.users.find? (fun u => u.tgid == tg)

/-- `SELECT ... FROM users WHERE id = ?` (first row). -/
def findUserById (st : DB) (i : Nat) : Option UserR :=
  st.users.find? (fun u => u.uid == i)

/-- `get_active_round` (bot.py 194-204): the most recent round with
`status = 'open'` (`ORDER BY start_time DESC LIMIT 1`; rows are in
insertion = start-time order, so this is the last matching row). -/
def get_active_round (st : DB) : Option String :=
  (st.rounds.reverse.find? (fun r => r.status == "open")).map (fun r => r.rid)

/-- `check_pending_round` (bot.py 752-757). -/
def check_pending_round (st : DB) : Bool :=
  st.rounds.any (fun r => r.status == "open" || (r.status == "waiting" && r.end_time == none))

/-- `create_new_round` (bot.py 760-787): refuse when a pending round
exists, otherwise insert round `today ++ zfill3 (count_today + 1)` with
status `open` and commit at once (on its own connection).  Returns the new
state and round id. -/
def create_new_round (st : DB) (today : String) : Option (DB × String) :=
  if check_pending_round st then none
  else
    let cnt := st.rounds.countP (fun r => today.isPrefixOf r.rid)
    let rid := today ++ zfill3 (natRepr (cnt + 1))
    some ({ st with rounds := st.rounds ++ [⟨rid, today, none, none, "open"⟩] }, rid)

/-- `start` (bot.py 305-336): register the sender if unknown with balance 0;
if the `users` table then holds exactly one row, grant that row both the
admin and super-admin flags. -/
def start (st : DB) (tg : Nat) (uname : Option String) (chat : Nat) : DB :=
  match findUserByTg st tg with
  | some _ => st
  | none =>
    let u : UserR := ⟨st.nextUserId, tg, uname, chat, 0, false, false⟩
    let users1 := st.users ++ [u]
    let users2 :=
      if users1.length = 1 then
        users1.map (fun v =>
          if v.tgid == tg then { v with is_admin := true, is_super_admin := true } else v)
      else users1
    { st with users := users2, nextUserId := st.nextUserId + 1 }

/-! ## Settlement (`settle_bets`, bot.py 1275-1376) -/

/-- The per-bet result rule (bot.py 1314-1341): on a triple only `豹子`
bets win; otherwise size/parity bets win when the side matches and sum bets
win when the declared value equals `str(total)`. -/
def settleOne (S : SettingsR) (isLeopard : Bool) (size oddEven : String) (total : Nat)
    (b : BetR) : String × Nat :=
  if isLeopard then
    if b.bet_type == "豹子" then ("win", b.amount * S.odds_baozi) else ("lose", 0)
  else if b.bet_type == "大" || b.bet_type == "小" || b.bet_type == "单" || b.bet_type == "双" then
    if (b.bet_type == "大" && size == "大") || (b.bet_type == "小" && size == "小") ||
        (b.bet_type == "单" && oddEven == "单") || (b.bet_type == "双" && oddEven == "双") then
      ("win", b.amount * S.odds_daxiao)
    else ("lose", 0)
  else if b.bet_type == "和值" && b.bet_value == natRepr total then
    ("win", b.amount * S.odds_hezhi)
  else ("lose", 0)

/-- `UPDATE bets SET result = ?, payout = ? WHERE id = ?`. -/
def updBetRP (tbl : List BetR) (i : Nat) (res : String) (pay : Nat) : List BetR :=
  tbl.map (fun x => if x.bid == i then { x with result := some res, payout := pay } else x)

/-- Credit a payout (bot.py 1350-1366): fetch the user's balance, write the
sum back, or raise (`none`) when the row is missing. -/
def creditUser (users : List UserR) (i : Nat) (pay : Nat) : Option (List UserR) :=
  match users.find? (fun u => u.uid == i) with
  | none => none
  | some u =>
    some (users.map (fun v =>
      if v.uid == i then { v with balance := u.balance + (pay : Int) } else v))

/-- The settlement loop body (bot.py 1307-1368): write each bet's result and
payout, and for a positive winning payout credit the owner and append a
`payout` log entry.  `none` models an exception (rolled back by the
caller). -/
def settleLoop (S : SettingsR) (isL : Bool) (size oe : String) (total : Nat) :
    List BetR → DB → Bool → Option (DB × Bool)
  | [], st, hw => some (st, hw)
  | b :: rest, st, hw =>
    let rp := settleOne S isL size oe total b
    let st1 := { st with bets := updBetRP st.bets b.bid rp.1 rp.2 }
    let hw1 := hw || rp.1 == "win"
    if rp.1 == "win" && rp.2 > 0 then
      match creditUser st1.users b.user_id rp.2 with
      | none => none
      | some us =>
        settleLoop S isL size oe total rest
          { st1 with
            users := us
            balance_logs := st1.balance_logs ++ [⟨b.user_id, (rp.2 : Int), "payout", 0⟩] } hw1
    else settleLoop S isL size oe total rest st1 hw1

/-- `settle_bets` (bot.py 1275-1376).  The `dice_result` string
`"d1,d2,d3"` that the caller passes is decoded right back into the three
values, so the function takes them directly.  Returns the new state and
`has_winners`, or `none` for an exception. -/
def settle_bets (st : DB) (round_id : String) (d1 d2 d3 : Nat) : Option (DB × Bool) :=
  let S := st.settings
  let total := d1 + d2 + d3
  let isL := d1 == d2 && d2 == d3
  let size := if total > 10 then "大" else "小"
  let oe := if total % 2 == 1 then "单" else "双"
  let toSettle := st.bets.filter (fun b => b.round_id == round_id && b.status == "active")
  if toSettle = [] then some (st, false)
  else settleLoop S isL size oe total toSettle st false

/-- The `"d1,d2,d3"` encoding of a dice outcome. -/
def diceStr (d1 d2 d3 : Nat) : String :=
  natRepr d1 ++ "," ++ natRepr d2 ++ "," ++ natRepr d3

/-- `handle_dice` (bot.py 1056-1272) on a complete three-value outcome (the
three-die-emoji message, with the `🎲` wildcard already resolved; the
per-chat collection buffer for native rolls is presentation state that only
delays this call).  Validates the values, re-checks the active round's
status and idempotency guard, closes the round and settles it; an exception
inside settlement rolls the whole transaction back. -/
def handle_dice (st : DB) (tg : Nat) (d1 d2 d3 : Nat) (now : String) : DB :=
  match get_active_round st with
  | none => st
  | some rid =>
    if d1 < 1 || 6 < d1 || d2 < 1 || 6 < d2 || d3 < 1 || 6 < d3 then st
    else match findUserByTg st tg with
    | none => st
    | some _ =>
      match st.rounds.find? (fun r => r.rid == rid) with
      | none => st
      | some rd =>
        if ¬ rd.status = "open" then st
        else if rd.dice_result.isSome then st
        else
          let st1 := { st with rounds := st.rounds.map (fun r =>
            if r.rid == rid then
              { r with
                status := "closed"
                end_time := some now
                dice_result := some (diceStr d1 d2 d3) }
            else r) }
          match settle_bets st1 rid d1 d2 d3 with
          | none => st
          | some p => p.1

/-! ## Bet intake (`process_bet`, bot.py 829-999) -/

/-- The round resolution step of `process_bet` (bot.py 880-887): reuse the
active round, otherwise create one (which commits immediately, so the new
round survives any later rejection). -/
def resolveRound (st : DB) (today : String) : Option (DB × String) :=
  match get_active_round st with
  | some rid => some (st, rid)
  | none => create_new_round st today

/-- A user's active bets in a round (bot.py 890-893). -/
def activeBetsOf (st : DB) (uid : Nat) (rid : String) : List BetR :=
  st.bets.filter (fun b => b.user_id == uid && b.round_id == rid && b.status == "active")

/-- The size/odd-even bucket membership (bot.py 896). -/
def isSizeParityType (t : String) : Bool :=
  t == "大" || t == "小" || t == "单" || t == "双"

/-- The combined type list checked for opposing sides (bot.py 937-940). -/
def allBetTypes (current : List BetR) (newBets : List PBet) : List String :=
  current.map (fun b => b.bet_type) ++ newBets.map (fun b => b.ptype)

/-- `process_bet` (bot.py 829-999).  Returns the new state and whether the
bet was accepted.  The `'1'`/`'22'`/`'33'` inputs are read-only query
shortcuts; every rejection leaves the connection uncommitted except for the
round possibly created (and committed) by `create_new_round`. -/
def process_bet (st : DB) (tg : Nat) (text : String) (today : String) : DB × Bool :=
  if ¬ st.settings.betting_active then (st, false)
  else if text == "1" || text == "22" || text == "33" then (st, false)
  else match findUserByTg st tg with
  | none => (st, false)
  | some du =>
    match resolveRound st today with
    | none => (st, false)
    | some (st1, rid) =>
      let current := activeBetsOf st1 du.uid rid
      match parse_bet text with
      | none => (st1, false)
      | some bets =>
        let curSP := current.countP (fun b => isSizeParityType b.bet_type)
        let curSum := current.countP (fun b => b.bet_type == "和值")
        let curLeo := current.countP (fun b => b.bet_type == "豹子")
        let newSP := bets.countP (fun b => isSizeParityType b.ptype)
        let newSum := bets.countP (fun b => b.ptype == "和值")
        let newLeo := bets.countP (fun b => b.ptype == "豹子")
        if curSP + newSP > st1.settings.max_size_odd_even_bets ∨
            curSum + newSum > st1.settings.max_sum_bets ∨
            curLeo + newLeo > st1.settings.max_leopard_bets then (st1, false)
        else
          let allTypes := allBetTypes current bets
          if ("大" ∈ allTypes ∧ "小" ∈ allTypes) ∨ ("单" ∈ allTypes ∧ "双" ∈ allTypes) then
            (st1, false)
          else
            let total := (bets.map (fun b => b.pamount)).sum
            if du.balance < (total : Int) then (st1, false)
            else if bets.any
                (fun b => b.pamount < st1.settings.min_bet || st1.settings.max_bet < b.pamount) then
              (st1, false)
            else
              let users2 := st1.users.map (fun v =>
                if v.uid == du.uid then { v with balance := du.balance - (total : Int) } else v)
              let newBets := bets.enum.map (fun p =>
                (⟨st1.nextBetId + p.1, du.uid, rid, p.2.ptype, p.2.pvalue, p.2.pamount,
                  "active", none, 0⟩ : BetR))
              let newLogs := bets.map (fun b => (⟨du.uid, -(b.pamount : Int), "bet", 0⟩ : LogR))
              ({ st1 with
                 users := users2
                 bets := st1.bets ++ newBets
                 balance_logs := st1.balance_logs ++ newLogs
                 nextBetId := st1.nextBetId + bets.length }, true)

/-! ## Cancellation (`cancel_bet`, bot.py 2286-2410) -/

/-- One step of the reply-mode cancellation loop (bot.py 2332-2357): find
one still-active bet matching the intent exactly, mark it cancelled and
accumulate the refund and its `refund` log entry. -/
def cancelBetStep (u : UserR) (rid : String) (acc : List BetR × Int × List LogR)
    (pb : PBet) : List BetR × Int × List LogR :=
  match acc.1.find? (fun b => b.user_id == u.uid && b.round_id == rid &&
      b.bet_type == pb.ptype && b.bet_value == pb.pvalue && b.amount == pb.pamount &&
      b.status == "active") with
  | none => acc
  | some br =>
    (acc.1.map (fun x => if x.bid == br.bid then { x with status := "cancelled" } else x),
     acc.2.1 + (br.amount : Int),
     acc.2.2 ++ [⟨u.uid, (br.amount : Int), "refund", 0⟩])

/-- `cancel_bet` (bot.py 2286-2410).  `replied = some t` is the
replied-to-message mode, `none` cancels all the user's active bets of the
open round.  The function only commits when the total refund is positive;
otherwise every pending write is rolled back when the connection closes. -/
def cancel_bet (st : DB) (tg : Nat) (replied : Option String) : DB :=
  match findUserByTg st tg with
  | none => st
  | some u =>
    match get_active_round st with
    | none => st
    | some rid =>
      match st.rounds.find? (fun r => r.rid == rid) with
      | none => st
      | some rd =>
        if ¬ rd.status = "open" then st
        else
          match replied with
          | some rtext =>
            match parse_bet rtext with
            | none => st
            | some intents =>
              let fin := intents.foldl (cancelBetStep u rid) (st.bets, 0, [])
              if 0 < fin.2.1 then
                { st with
                  bets := fin.1
                  balance_logs := st.balance_logs ++ fin.2.2
                  users := st.users.map (fun v =>
                    if v.uid == u.uid then { v with balance := v.balance + fin.2.1 } else v) }
              else st
          | none =>
            let mine := activeBetsOf st u.uid rid
            if mine = [] then st
            else
              let refund : Int := (mine.map (fun b => (b.amount : Int))).sum
              let bets1 := mine.foldl (fun tbl b =>
                tbl.map (fun x =>
                  if x.bid == b.bid then { x with status := "cancelled" } else x)) st.bets
              if 0 < refund then
                { st with
                  bets := bets1
                  balance_logs := st.balance_logs ++ [⟨u.uid, refund, "refund", 0⟩]
                  users := st.users.map (fun v =>
                    if v.uid == u.uid then { v with balance := v.balance + refund } else v) }
              else st

/-! ## Admin balance operations -/

/-- `adjust_balance` (bot.py 339-449) in its `IDxxx +n` / `IDxxx -n`
addressing mode (the reply mode differs only in how the target row is
fetched).  Requires an admin operator; refuses to drive a balance negative;
otherwise writes the new balance and one `recharge`/`withdraw` log entry. -/
def adjust_balance (st : DB) (opTg : Nat) (targetId : Nat) (amount : Int) : DB :=
  match findUserByTg st opTg with
  | none => st
  | some op =>
    if ¬ (op.is_admin || op.is_super_admin) then st
    else match findUserById st targetId with
    | none => st
    | some tu =>
      if amount < 0 ∧ tu.balance + amount < 0 then st
      else
        let lt := if 0 < amount then "recharge" else "withdraw"
        { st with
          users := st.users.map (fun v =>
            if v.uid == targetId then { v with balance := tu.balance + amount } else v)
          balance_logs := st.balance_logs ++ [⟨targetId, amount, lt, op.uid⟩] }

/-- `deduct_by_username` (bot.py 2167-2249): `/kou @name amount`.  The
target is looked up by username, falling back to a numeric Telegram id;
requires a positive amount not exceeding the target's balance; writes the
reduced balance and a negative `withdraw` log entry. -/
def deduct_by_username (st : DB) (opTg : Nat) (uname : String) (amount : Nat) : DB :=
  match findUserByTg st opTg with
  | none => st
  | some op =>
    if ¬ (op.is_admin || op.is_super_admin) then st
    else if amount = 0 then st
    else
      let target :=
        match st.users.find? (fun v => v.uname == some uname) with
        | some u => some u
        | none =>
          match uname.toNat? with
          | some n => st.users.find? (fun v => v.tgid == n)
          | none => none
      match target with
      | none => st
      | some tu =>
        if tu.balance < (amount : Int) then st
        else
          { st with
            users := st.users.map (fun v =>
              if v.uid == tu.uid then { v with balance := tu.balance - (amount : Int) } else v)
            balance_logs := st.balance_logs ++ [⟨tu.uid, -(amount : Int), "withdraw", op.uid⟩] }

/-- `clear_all_balances` (bot.py 2252-2283), confirmed invocation: append an
`admin_clear` log entry of `-balance` for every user with a positive
balance, then zero every balance.  Super-admin only. -/
def clear_all_balances (st : DB) (opTg : Nat) : DB :=
  match findUserByTg st opTg with
  | none => st
  | some op =>
    if ¬ op.is_super_admin then st
    else
      { st with
        balance_logs := st.balance_logs ++
          ((st.users.filter (fun u => 0 < u.balance)).map
            (fun u => ⟨u.uid, -u.balance, "admin_clear", op.uid⟩))
        users := st.users.map (fun u => { u with balance := 0 }) }

/-! ## Operation sequences -/

/-- The state-mutating operations of the engine, with their external
inputs. -/
inductive Op where
  | reg (tg : Nat) (uname : Option String) (chat : Nat)
  | bet (tg : Nat) (text : String) (today : String)
  | dice (tg : Nat) (d1 d2 d3 : Nat) (now : String)
  | cancel (tg : Nat) (replied : Option String)
  | adjust (opTg : Nat) (targetId : Nat) (amount : Int)
  | kou (opTg : Nat) (uname : String) (amount : Nat)
  | qingchu (opTg : Nat)
deriving DecidableEq

/-- Dispatch one inbound event to its handler. -/
def applyOp (st : DB) : Op → DB
  | .reg tg un ch => start st tg un ch
  | .bet tg tx d => (process_bet st tg tx d).1
  | .dice tg a b c now => handle_dice st tg a b c now
  | .cancel tg r => cancel_bet st tg r
  | .adjust o t a => adjust_balance st o t a
  | .kou o un a => deduct_by_username st o un a
  | .qingchu o => clear_all_balances st o

/-- Process a sequence of events in order. -/
def applyOps (st : DB) : List Op → DB
  | [] => st
  | op :: rest => applyOps (applyOp st op) rest

/-- Number of rounds with `status = 'open'`. -/
def openCount (st : DB) : Nat :=
  st.rounds.countP (fun r => r.status == "open")

/-! ## Generic lemmas about the embedded handlers -/

theorem dedupLoop_spec (l : List PBet) : ∀ seen : List PBet,
    (dedupLoop l seen).Nodup ∧ ∀ b ∈ dedupLoop l seen, b ∉ seen := by
  induction l with
  | nil => intro seen; simp [dedupLoop]
  | cons b rest ih =>
    intro seen
    by_cases hb : b ∈ seen
    · simp only [dedupLoop, if_pos hb]
      exact ih seen
    · simp only [dedupLoop, if_neg hb]
      refine ⟨List.nodup_cons.mpr ⟨fun hmem => ?_, (ih (b :: seen)).1⟩, ?_⟩
      · exact ((ih (b :: seen)).2 _ hmem) (List.mem_cons_self _ _)
      · intro x hx
        rcases List.mem_cons.mp hx with rfl | hx'
        · exact hb
        · intro hxs
          exact ((ih (b :: seen)).2 _ hx') (List.mem_cons_of_mem _ hxs)

theorem parse_bet_nodup (text : String) (bets : List PBet)
    (h : parse_bet text = some bets) : bets.Nodup := by
  unfold parse_bet at h
  dsimp only at h
  split at h
  · exact Option.noConfusion h
  · simp only [Option.some.injEq] at h
    subst h
    exact (dedupLoop_spec _ _).1

theorem digit_not_space (c : Char) (h : isDigitChar c = true) : isSpaceChar c = false := by
  unfold isDigitChar at h
  simp only [Bool.and_eq_true, decide_eq_true_eq] at h
  by_contra hsp
  simp only [Bool.not_eq_false] at hsp
  unfold isSpaceChar at hsp
  simp only [Bool.or_eq_true, decide_eq_true_eq] at hsp
  rcases hsp with ((((h1 | h1) | h1) | h1) | h1) | h1 <;> subst h1 <;>
    exact absurd h.1 (by decide)

theorem get_active_round_eq_none_iff (st : DB) :
    get_active_round st = none ↔ ∀ r ∈ st.rounds, ¬ r.status = "open" := by
  unfold get_active_round
  rw [Option.map_eq_none', List.find?_eq_none]
  constructor
  · intro h r hr
    have := h r (List.mem_reverse.mpr hr)
    simpa using this
  · intro h r hr
    have := h r (List.mem_reverse.mp hr)
    simpa using this

theorem openCount_eq_zero_of_none (st : DB) (h : get_active_round st = none) :
    openCount st = 0 := by
  rw [get_active_round_eq_none_iff] at h
  unfold openCount
  rw [List.countP_eq_zero]
  intro r hr
  simpa using h r hr

theorem resolveRound_components (st : DB) (today : String) (st1 : DB) (rid : String)
    (h : resolveRound st today = some (st1, rid)) :
    st1.users = st.users ∧ st1.bets = st.bets ∧ st1.balance_logs = st.balance_logs ∧
    st1.settings = st.settings ∧ st1.nextUserId = st.nextUserId ∧
    st1.nextBetId = st.nextBetId := by
  unfold resolveRound at h
  split at h
  · simp only [Option.some.injEq, Prod.mk.injEq] at h
    obtain ⟨h1, -⟩ := h
    subst h1
    exact ⟨rfl, rfl, rfl, rfl, rfl, rfl⟩
  · unfold create_new_round at h
    split at h
    · exact Option.noConfusion h
    · simp only [Option.some.injEq, Prod.mk.injEq] at h
      obtain ⟨h1, -⟩ := h
      subst h1
      exact ⟨rfl, rfl, rfl, rfl, rfl, rfl⟩

theorem resolveRound_rounds (st : DB) (today : String) (st1 : DB) (rid : String)
    (h : resolveRound st today = some (st1, rid)) :
    st1.rounds = st.rounds ∨
      (get_active_round st = none ∧
        ∃ r : RoundR, r.status = "open" ∧ st1.rounds = st.rounds ++ [r]) := by
  unfold resolveRound at h
  split at h
  · simp only [Option.some.injEq, Prod.mk.injEq] at h
    obtain ⟨h1, -⟩ := h
    subst h1
    exact Or.inl rfl
  · unfold create_new_round at h
    split at h
    · exact Option.noConfusion h
    · simp only [Option.some.injEq, Prod.mk.injEq] at h
      obtain ⟨h1, -⟩ := h
      subst h1
      exact Or.inr ⟨by assumption, _, rfl, rfl⟩

/-- Shape of `process_bet`'s result state: either accepted, or rejected
with the state unchanged, or rejected with only the round-resolution step
(which commits on its own) applied. -/
theorem process_bet_shape (st : DB) (tg : Nat) (text today : String) :
    (process_bet st tg text today).2 = true ∨
    (process_bet st tg text today).1 = st ∨
    ((process_bet st tg text today).2 = false ∧
      (resolveRound st today).map (fun p => p.1) = some (process_bet st tg text today).1) := by
  unfold process_bet
  dsimp only
  repeat' split
  all_goals first
    | (left; rfl)
    | (right; left; rfl)
    | (right; right; refine ⟨rfl, ?_⟩; simp_all)

/-- Every rejection path of `process_bet` leaves `users`, `bets` and
`balance_logs` untouched (only the implicit round creation can survive). -/
theorem process_bet_reject_components (st : DB) (tg : Nat) (text today : String)
    (h : (process_bet st tg text today).2 = false) :
    (process_bet st tg text today).1.users = st.users ∧
    (process_bet st tg text today).1.bets = st.bets ∧
    (process_bet st tg text today).1.balance_logs = st.balance_logs := by
  rcases process_bet_shape st tg text today with h1 | h1 | ⟨-, h1⟩
  · rw [h1] at h
    exact Bool.noConfusion h
  · rw [h1]
    exact ⟨rfl, rfl, rfl⟩
  · cases hrr : resolveRound st today with
    | none => rw [hrr] at h1; exact Option.noConfusion h1
    | some p =>
      rw [hrr, Option.map_some'] at h1
      have hp : resolveRound st today = some (p.1, p.2) := by rw [hrr]
      obtain ⟨hu, hb, hl, -⟩ := resolveRound_components _ _ _ _ hp
      have h2 : (process_bet st tg text today).1 = p.1 := by
        injection h1 with h1i
        exact h1i.symm
      rw [h2]
      exact ⟨hu, hb, hl⟩

theorem start_rounds (st : DB) (tg : Nat) (un : Option String) (ch : Nat) :
    (start st tg un ch).rounds = st.rounds := by
  unfold start
  try dsimp only
  repeat' split
  all_goals rfl

theorem cancel_bet_rounds (st : DB) (tg : Nat) (r : Option String) :
    (cancel_bet st tg r).rounds = st.rounds := by
  unfold cancel_bet
  try dsimp only
  repeat' split
  all_goals rfl

theorem adjust_balance_rounds (st : DB) (opTg targetId : Nat) (amount : Int) :
    (adjust_balance st opTg targetId amount).rounds = st.rounds := by
  unfold adjust_balance
  try dsimp only
  repeat' split
  all_goals rfl

theorem deduct_by_username_rounds (st : DB) (opTg : Nat) (un : String) (amount : Nat) :
    (deduct_by_username st opTg un amount).rounds = st.rounds := by
  unfold deduct_by_username
  try dsimp only
  repeat' split
  all_goals rfl

theorem clear_all_balances_rounds (st : DB) (opTg : Nat) :
    (clear_all_balances st opTg).rounds = st.rounds := by
  unfold clear_all_balances
  try dsimp only
  repeat' split
  all_goals rfl

/-- The settlement loop only touches `bets`, `users` and `balance_logs`. -/
theorem settleLoop_state (S : SettingsR) (isL : Bool) (sz oe : String) (tot : Nat)
    (L : List BetR) : ∀ (st : DB) (hw : Bool) (st' : DB) (hw' : Bool),
    settleLoop S isL sz oe tot L st hw = some (st', hw') →
    st'.rounds = st.rounds ∧ st'.settings = st.settings ∧
    st'.nextUserId = st.nextUserId ∧ st'.nextBetId = st.nextBetId := by
  induction L with
  | nil =>
    intro st hw st' hw' h
    unfold settleLoop at h
    simp only [Option.some.injEq, Prod.mk.injEq] at h
    obtain ⟨h1, -⟩ := h
    subst h1
    exact ⟨rfl, rfl, rfl, rfl⟩
  | cons b rest ih =>
    intro st hw st' hw' h
    unfold settleLoop at h
    dsimp only at h
    split at h
    · split at h
      · exact Option.noConfusion h
      · have hres := ih _ _ _ _ h
        exact hres
    · have hres := ih _ _ _ _ h
      exact hres

theorem settle_bets_state (st : DB) (rid : String) (d1 d2 d3 : Nat) (st' : DB) (hw : Bool)
    (h : settle_bets st rid d1 d2 d3 = some (st', hw)) :
    st'.rounds = st.rounds ∧ st'.settings = st.settings ∧
    st'.nextUserId = st.nextUserId ∧ st'.nextBetId = st.nextBetId := by
  unfold settle_bets at h
  dsimp only at h
  split at h
  · simp only [Option.some.injEq, Prod.mk.injEq] at h
    obtain ⟨h1, -⟩ := h
    subst h1
    exact ⟨rfl, rfl, rfl, rfl⟩
  · exact settleLoop_state _ _ _ _ _ _ _ _ _ _ h

theorem openCount_congr (st st' : DB) (h : st'.rounds = st.rounds) :
    openCount st' = openCount st := by
  unfold openCount
  rw [h]

theorem handle_dice_openCount (st : DB) (tg d1 d2 d3 : Nat) (now : String)
    (h : openCount st ≤ 1) : openCount (handle_dice st tg d1 d2 d3 now) ≤ 1 := by
  unfold handle_dice
  dsimp only
  repeat' split
  all_goals try exact h
  rename_i p hset
  obtain ⟨hr, -, -, -⟩ := settle_bets_state _ _ _ _ _ _ _ hset
  unfold openCount
  rw [hr]
  dsimp only
  rw [List.countP_map]
  refine le_trans (List.countP_mono_left ?_) h
  intro r hrmem hpr
  simp only [Function.comp] at hpr
  split at hpr
  · simp at hpr
  · exact hpr

theorem process_bet_rounds (st : DB) (tg : Nat) (text today : String) :
    (process_bet st tg text today).1.rounds = st.rounds ∨
    (resolveRound st today).map (fun p => p.1.rounds) =
      some (process_bet st tg text today).1.rounds := by
  unfold process_bet
  dsimp only
  repeat' split
  all_goals first
    | (left; rfl)
    | (right; simp_all)

theorem process_bet_openCount (st : DB) (tg : Nat) (text today : String)
    (h : openCount st ≤ 1) : openCount (process_bet st tg text today).1 ≤ 1 := by
  rcases process_bet_rounds st tg text today with h1 | h1
  · unfold openCount
    rw [h1]
    exact h
  · cases hrr : resolveRound st today with
    | none => rw [hrr] at h1; exact Option.noConfusion h1
    | some p =>
      rw [hrr, Option.map_some'] at h1
      have hp : resolveRound st today = some (p.1, p.2) := by rw [hrr]
      have h2 : openCount (process_bet st tg text today).1 = openCount p.1 := by
        unfold openCount
        injection h1 with h1i
        rw [h1i]
      rw [h2]
      rcases resolveRound_rounds _ _ _ _ hp with h3 | ⟨hnone, r, hrop, h3⟩
      · unfold openCount
        rw [h3]
        exact h
      · unfold openCount
        rw [h3, List.countP_append]
        have h0 : openCount st = 0 := openCount_eq_zero_of_none st hnone
        unfold openCount at h0
        rw [h0]
        simp [hrop]

theorem applyOp_openCount (st : DB) (op : Op) (h : openCount st ≤ 1) :
    openCount (applyOp st op) ≤ 1 := by
  cases op with
  | reg tg un ch =>
    rw [show applyOp st (Op.reg tg un ch) = start st tg un ch from rfl,
      openCount_congr _ _ (start_rounds st tg un ch)]
    exact h
  | bet tg tx d => exact process_bet_openCount st tg tx d h
  | dice tg a b c now => exact handle_dice_openCount st tg a b c now h
  | cancel tg r =>
    rw [show applyOp st (Op.cancel tg r) = cancel_bet st tg r from rfl,
      openCount_congr _ _ (cancel_bet_rounds st tg r)]
    exact h
  | adjust o t a =>
    rw [show applyOp st (Op.adjust o t a) = adjust_balance st o t a from rfl,
      openCount_congr _ _ (adjust_balance_rounds st o t a)]
    exact h
  | kou o un a =>
    rw [show applyOp st (Op.kou o un a) = deduct_by_username st o un a from rfl,
      openCount_congr _ _ (deduct_by_username_rounds st o un a)]
    exact h
  | qingchu o =>
    rw [show applyOp st (Op.qingchu o) = clear_all_balances st o from rfl,
      openCount_congr _ _ (clear_all_balances_rounds st o)]
    exact h

theorem applyOps_openCount (ops : List Op) : ∀ st : DB, openCount st ≤ 1 →
    openCount (applyOps st ops) ≤ 1 := by
  induction ops with
  | nil => intro st h; exact h
  | cons op rest ih =>
    intro st h
    exact ih _ (applyOp_openCount st op h)

/-! ## Concrete states used by the witnesses -/

/-- The settings row seeded by `init_db` (bot.py 118-129) with betting on. -/
def defaultSettings : SettingsR := ⟨1000, 30000, 2, 3, 1, 2, 7, 11, true⟩

/-- A fresh database with the seeded settings. -/
def emptyDB : DB := ⟨[], [], [], [], defaultSettings, 1, 1⟩

/-- A database whose only round is closed and settled. -/
def closedRoundDB : DB :=
  ⟨[⟨1, 100, some "alice", 7, 3000, true, true⟩],
   [⟨1, 1, "20260101001", "大", "", 1000, "active", some "win", 2000⟩],
   [⟨"20260101001", "20260101", some "t1", some "3,4,5", "closed"⟩],
   [⟨1, 2000, "recharge", 0⟩, ⟨1, -1000, "bet", 0⟩, ⟨1, 2000, "payout", 0⟩],
   defaultSettings, 2, 2⟩

/-! ## The claims -/

/-- C2: starting from a state with no open round, for every sequence of the
engine's operations (in particular round creation via `create_new_round`,
which refuses to run when `check_pending_round` reports a pending round,
and round closure inside `handle_dice`), at most one round has
`status = 'open'` at any point. -/
theorem C2_single_open_round (st : DB) (ops : List Op) (h : openCount st = 0) :
    openCount (applyOps st ops) ≤ 1 :=
  applyOps_openCount ops st (by omega)

theorem C2_witness :
    openCount (applyOps emptyDB
      [Op.reg 100 (some "alice") 7, Op.adjust 100 1 5000,
       Op.bet 100 "大1000" "20260101", Op.bet 100 "豹子1000" "20260101",
       Op.dice 100 3 4 5 "t1", Op.bet 100 "小2000" "20260101"]) ≤ 1 :=
  C2_single_open_round emptyDB _ (by decide)

/-- C3: once a round is closed with a recorded outcome and settled, it can
never be fetched as the active round again, so submitting another complete
dice outcome changes no state at all: no bet result or payout is rewritten,
no balance changes, and no `balance_logs` row is appended.  (The hypothesis
is the state right after closure: no round is open.) -/
theorem C3_settlement_exactly_once (st : DB) (tg d1 d2 d3 : Nat) (now : String)
    (h : ∀ r ∈ st.rounds, ¬ r.status = "open") :
    handle_dice st tg d1 d2 d3 now = st := by
  have hnone : get_active_round st = none := (get_active_round_eq_none_iff st).mpr h
  unfold handle_dice
  rw [hnone]

theorem C3_witness : handle_dice closedRoundDB 100 2 2 2 "t2" = closedRoundDB :=
  C3_settlement_exactly_once closedRoundDB 100 2 2 2 "t2" (by decide)

/-- C8: the parser's reference outputs.  `parse_bet "大1000"` yields exactly
the one intent (big, empty value, stake 1000); the compound `"大单2000"`
yields exactly (big, 2000) then (odd, 2000); `"11 1000"` yields exactly one
sum intent with value `"11"` and stake 1000; `"19 1000"` yields no intents
because 19 is outside [3, 18]; duplicated intents collapse
(`"大1000 大1000"` yields one intent), and in general every returned intent
list is duplicate-free in (category, value, stake). -/
theorem C8_parser_reference_outputs :
    parse_bet "大1000" = some [⟨"大", "", 1000⟩] ∧
    parse_bet "大单2000" = some [⟨"大", "", 2000⟩, ⟨"单", "", 2000⟩] ∧
    parse_bet "11 1000" = some [⟨"和值", "11", 1000⟩] ∧
    parse_bet "19 1000" = none ∧
    parse_bet "大1000 大1000" = some [⟨"大", "", 1000⟩] ∧
    ∀ text bets, parse_bet text = some bets → bets.Nodup :=
  ⟨by decide, by decide, by decide, by decide, by decide, parse_bet_nodup⟩

theorem C8_witness :
    parse_bet "小500 小500 5 500" = some [⟨"小", "", 500⟩, ⟨"和值", "5", 500⟩] ∧
    ([⟨"小", "", 500⟩, ⟨"和值", "5", 500⟩] : List PBet).Nodup :=
  ⟨by decide,
   C8_parser_reference_outputs.2.2.2.2.2 "小500 小500 5 500" _ (by decide)⟩

/-- C9 is refuted at the input `"111000"`: it contains no whitespace at
all, yet the second parser pass produces the sum intent (11, 1000), because
the regex separator is `\s*` (optional), not a mandatory space. -/
theorem C9_counterexample :
    ("111000".toList.all (fun c => ! isSpaceChar c)) = true ∧
    parse_bet "111000" = some [⟨"和值", "11", 1000⟩] :=
  ⟨by decide, by decide⟩

/-- C9 (amended): in the parser's second pass a sum-bet intent is produced
for tokens of the form a 1-or-2-digit number followed by *optional*
whitespace and then an amount — the separator is not required — with the
leading number accepted only if it lies in [3, 18].  In particular a
two-digit number glued directly to its amount still matches (first
conjunct, and `"111000"`), and the [3, 18] guard still applies with or
without the space (`"19 1000"`, `"191000"`). -/
theorem C9_amended_sum_token_shape :
    (∀ (d1 d2 : Char) (rest : List Char), isDigitChar d1 = true → isDigitChar d2 = true →
      rest ≠ [] → (∀ c ∈ rest, isDigitChar c = true) →
      trySumAt (d1 :: d2 :: rest) = some ([d1, d2], rest, 2 + rest.length)) ∧
    parse_bet "11 1000" = some [⟨"和值", "11", 1000⟩] ∧
    parse_bet "111000" = some [⟨"和值", "11", 1000⟩] ∧
    parse_bet "19 1000" = none ∧
    parse_bet "191000" = none := by
  refine ⟨?_, by decide, by decide, by decide, by decide⟩
  intro d1 d2 rest hd1 hd2 hne hall
  have h1 : rest.takeWhile isSpaceChar = [] := by
    cases rest with
    | nil => rfl
    | cons c cs =>
      have hc := digit_not_space c (hall c (List.mem_cons_self _ _))
      simp [List.takeWhile, hc]
  have h2 : rest.takeWhile isDigitChar = rest :=
    List.takeWhile_eq_self_iff.mpr (fun a ha => hall a ha)
  have hsp : spDigits rest = some (rest, rest.length) := by
    unfold spDigits
    rw [h1]
    dsimp only [List.length_nil, List.drop_zero]
    rw [h2, if_neg hne, Nat.zero_add]
  unfold trySumAt
  dsimp only
  rw [if_pos hd1]
  rw [if_pos hd2, hsp]

theorem C9_amended_witness :
    trySumAt ('1' :: '1' :: ['0', '0', '0']) = some (['1', '1'], ['0', '0', '0'], 5) :=
  C9_amended_sum_token_shape.1 '1' '1' ['0', '0', '0'] (by decide) (by decide)
    (by decide) (by decide)

/-- C10: the first user ever registered via `/start` (registering into an
empty `users` table) is granted both the admin and super-admin flags, while
every user registered into a nonempty table starts with neither flag; the
registration handler admits no other outcome. -/
theorem C10_first_user_super_admin (st : DB) (tg : Nat) (un : Option String) (ch : Nat) :
    (st.users = [] →
      start st tg un ch =
        { st with
          users := [⟨st.nextUserId, tg, un, ch, 0, true, true⟩]
          nextUserId := st.nextUserId + 1 }) ∧
    (st.users ≠ [] → findUserByTg st tg = none →
      start st tg un ch =
        { st with
          users := st.users ++ [⟨st.nextUserId, tg, un, ch, 0, false, false⟩]
          nextUserId := st.nextUserId + 1 }) := by
  constructor
  · intro hu
    have hf : findUserByTg st tg = none := by
      unfold findUserByTg
      rw [hu]
      rfl
    unfold start
    rw [hf]
    dsimp only
    rw [hu]
    simp
  · intro hu hf
    unfold start
    rw [hf]
    dsimp only
    have hlen : ¬ (st.users ++ [(⟨st.nextUserId, tg, un, ch, 0, false, false⟩ : UserR)]).length = 1 := by
      simp only [List.length_append, List.length_singleton]
      intro hc
      exact hu (List.length_eq_zero.mp (by omega))
    rw [if_neg hlen]

theorem C10_witness :
    (start emptyDB 100 (some "alice") 7 =
      { emptyDB with
        users := [⟨1, 100, some "alice", 7, 0, true, true⟩]
        nextUserId := 2 }) ∧
    (start (start emptyDB 100 (some "alice") 7) 200 (some "bob") 7 =
      { start emptyDB 100 (some "alice") 7 with
        users := (start emptyDB 100 (some "alice") 7).users ++
          [⟨2, 200, some "bob", 7, 0, false, false⟩]
        nextUserId := 3 }) :=
  ⟨(C10_first_user_super_admin emptyDB 100 (some "alice") 7).1 rfl,
   (C10_first_user_super_admin (start emptyDB 100 (some "alice") 7) 200 (some "bob") 7).2
     (by decide) (by decide)⟩

/-- A registered non-admin user with funds and no round at all. -/
def c4DB : DB :=
  ⟨[⟨1, 100, some "alice", 7, 2000, false, false⟩], [], [], [⟨1, 2000, "recharge", 0⟩],
   defaultSettings, 2, 1⟩

/-- C4 is refuted: the submission `"豹子50"` (stake below the 1000 minimum)
is rejected — no bet row, no balance change, no log entry — and yet a
brand-new open round has been created and committed, because `process_bet`
resolves/creates the round before any validation and `create_new_round`
commits on its own connection. -/
theorem C4_counterexample :
    (process_bet c4DB 100 "豹子50" "20260101").2 = false ∧
    (process_bet c4DB 100 "豹子50" "20260101").1.bets = c4DB.bets ∧
    (process_bet c4DB 100 "豹子50" "20260101").1.users = c4DB.users ∧
    (process_bet c4DB 100 "豹子50" "20260101").1.balance_logs = c4DB.balance_logs ∧
    (process_bet c4DB 100 "豹子50" "20260101").1.rounds =
      [⟨"20260101001", "20260101", none, none, "open"⟩] ∧
    c4DB.rounds = [] :=
  ⟨by decide, by decide, by decide, by decide, by decide, by decide⟩

/-- C4 (amended): for every bet submission that `process_bet` rejects, it
performs no change to `users` (so no balance debit), no change to `bets`
and no change to `balance_logs`; however the rounds table may gain the new
round that the handler creates and commits before validating, so "no new
round created" does not hold. -/
theorem C4_rejection_atomicity (st : DB) (tg : Nat) (text today : String)
    (h : (process_bet st tg text today).2 = false) :
    (process_bet st tg text today).1.users = st.users ∧
    (process_bet st tg text today).1.bets = st.bets ∧
    (process_bet st tg text today).1.balance_logs = st.balance_logs :=
  process_bet_reject_components st tg text today h

theorem C4_amended_witness :
    (process_bet c4DB 100 "大99999" "20260101").1.users = c4DB.users ∧
    (process_bet c4DB 100 "大99999" "20260101").1.bets = c4DB.bets ∧
    (process_bet c4DB 100 "大99999" "20260101").1.balance_logs = c4DB.balance_logs :=
  C4_rejection_atomicity c4DB 100 "大99999" "20260101" (by decide)

/-- An accepted submission passed the opposing-sides check. -/
theorem process_bet_accept_no_opposing (st : DB) (tg : Nat) (text today : String)
    (du : UserR) (st1 : DB) (rid : String) (bets : List PBet)
    (hdu : findUserByTg st tg = some du)
    (hr : resolveRound st today = some (st1, rid))
    (hp : parse_bet text = some bets)
    (hacc : (process_bet st tg text today).2 = true) :
    ¬ (("大" ∈ allBetTypes (activeBetsOf st1 du.uid rid) bets ∧
        "小" ∈ allBetTypes (activeBetsOf st1 du.uid rid) bets) ∨
       ("单" ∈ allBetTypes (activeBetsOf st1 du.uid rid) bets ∧
        "双" ∈ allBetTypes (activeBetsOf st1 du.uid rid) bets)) := by
  intro hopp
  unfold process_bet at hacc
  rw [hdu, hr, hp] at hacc
  dsimp only at hacc
  repeat' split at hacc
  all_goals exact Bool.noConfusion hacc

/-- C7: whenever the union of the user's existing active bet categories in
the resolved round and the newly parsed intent categories contains both
big (`大`) and small (`小`), or both odd (`单`) and even (`双`), the
submission is rejected: no bet row is created, no balance is debited and no
log entry is appended. -/
theorem C7_opposing_side_rejection (st : DB) (tg : Nat) (text today : String)
    (du : UserR) (st1 : DB) (rid : String) (bets : List PBet)
    (hdu : findUserByTg st tg = some du)
    (hr : resolveRound st today = some (st1, rid))
    (hp : parse_bet text = some bets)
    (hopp : ("大" ∈ allBetTypes (activeBetsOf st1 du.uid rid) bets ∧
        "小" ∈ allBetTypes (activeBetsOf st1 du.uid rid) bets) ∨
       ("单" ∈ allBetTypes (activeBetsOf st1 du.uid rid) bets ∧
        "双" ∈ allBetTypes (activeBetsOf st1 du.uid rid) bets)) :
    (process_bet st tg text today).2 = false ∧
    (process_bet st tg text today).1.users = st.users ∧
    (process_bet st tg text today).1.bets = st.bets ∧
    (process_bet st tg text today).1.balance_logs = st.balance_logs := by
  have hrej : (process_bet st tg text today).2 = false := by
    cases hb : (process_bet st tg text today).2 with
    | false => rfl
    | true =>
      exact absurd hopp
        (process_bet_accept_no_opposing st tg text today du st1 rid bets hdu hr hp hb)
  obtain ⟨h1, h2, h3⟩ := process_bet_reject_components st tg text today hrej
  exact ⟨hrej, h1, h2, h3⟩

/-- A registered user holding an active `大` bet in the open round. -/
def c7DB : DB :=
  ⟨[⟨1, 100, some "alice", 7, 5000, false, false⟩],
   [⟨1, 1, "20260101001", "大", "", 1000, "active", none, 0⟩],
   [⟨"20260101001", "20260101", none, none, "open"⟩],
   [], defaultSettings, 2, 2⟩

theorem C7_witness :
    (process_bet c7DB 100 "小2000" "20260101").2 = false ∧
    (process_bet c7DB 100 "小2000" "20260101").1.users = c7DB.users ∧
    (process_bet c7DB 100 "小2000" "20260101").1.bets = c7DB.bets ∧
    (process_bet c7DB 100 "小2000" "20260101").1.balance_logs = c7DB.balance_logs :=
  C7_opposing_side_rejection c7DB 100 "小2000" "20260101"
    ⟨1, 100, some "alice", 7, 5000, false, false⟩ c7DB "20260101001" [⟨"小", "", 2000⟩]
    (by decide) (by decide) (by decide) (by decide)

/-! ## Update-by-primary-key lemmas (for settlement and cancellation) -/

/-- A fold of `UPDATE ... WHERE id = ?` steps over a duplicate-free work
list rewrites exactly the listed rows, each by its own update. -/
theorem foldl_updateById (g : BetR → BetR → BetR)
    (hg : ∀ b x, (g b x).bid = x.bid) :
    ∀ (L tbl : List BetR),
    (tbl.map (fun b => b.bid)).Nodup →
    (L.map (fun b => b.bid)).Nodup →
    (∀ b ∈ L, b ∈ tbl) →
    L.foldl (fun t b => t.map (fun x => if x.bid == b.bid then g b x else x)) tbl
      = tbl.map (fun x => if x.bid ∈ L.map (fun b => b.bid) then g x x else x) := by
  intro L
  induction L with
  | nil =>
    intro tbl hnd hLnd hmem
    rw [List.foldl_nil, List.map_nil]
    have hid : ∀ x ∈ tbl, (if x.bid ∈ ([] : List Nat) then g x x else x) = x := by
      intro x hx
      rw [if_neg (List.not_mem_nil _)]
    rw [List.map_congr_left hid, List.map_id']
  | cons b L ih =>
    intro tbl hnd hLnd hmem
    rw [List.foldl_cons]
    have hb_tbl : b ∈ tbl := hmem b (List.mem_cons_self _ _)
    have hLnd' : (L.map (fun c => c.bid)).Nodup := by
      rw [List.map_cons] at hLnd
      exact (List.nodup_cons.mp hLnd).2
    have hbid_not : b.bid ∉ L.map (fun c => c.bid) := by
      rw [List.map_cons] at hLnd
      exact (List.nodup_cons.mp hLnd).1
    have hstep : ∀ x, ((fun x => if x.bid == b.bid then g b x else x) x).bid = x.bid := by
      intro x
      dsimp only
      split
      · exact hg b x
      · rfl
    have hbids1 : (tbl.map (fun x => if x.bid == b.bid then g b x else x)).map
        (fun x => x.bid) = tbl.map (fun x => x.bid) := by
      rw [List.map_map]
      exact List.map_congr_left (fun x _ => hstep x)
    have hnd1 : ((tbl.map (fun x => if x.bid == b.bid then g b x else x)).map
        (fun x => x.bid)).Nodup := by
      rw [hbids1]
      exact hnd
    have hmem1 : ∀ c ∈ L, c ∈ tbl.map (fun x => if x.bid == b.bid then g b x else x) := by
      intro c hc
      have hcm : c ∈ tbl := hmem c (List.mem_cons_of_mem _ hc)
      have hcbid : ¬ (c.bid == b.bid) = true := by
        simp only [beq_iff_eq]
        intro hcb
        exact hbid_not (hcb ▸ List.mem_map_of_mem (fun x => x.bid) hc)
      have hfix : (fun x => if x.bid == b.bid then g b x else x) c = c := by
        dsimp only
        rw [if_neg hcbid]
      rw [← hfix]
      exact List.mem_map_of_mem _ hcm
    rw [ih _ hnd1 hLnd' hmem1, List.map_map]
    refine List.map_congr_left ?_
    intro x hx
    simp only [Function.comp_apply]
    by_cases hxb : (x.bid == b.bid) = true
    · have hxbid : x.bid = b.bid := beq_iff_eq.mp hxb
      have hxeq : x = b := List.inj_on_of_nodup_map hnd hx hb_tbl hxbid
      rw [if_pos hxb]
      have hnotL : (g b x).bid ∉ L.map (fun c => c.bid) := by
        rw [hg b x, hxbid]
        exact hbid_not
      rw [if_neg hnotL, List.map_cons,
        if_pos (List.mem_cons.mpr (Or.inl hxbid))]
      rw [hxeq]
    · rw [if_neg hxb, List.map_cons]
      by_cases hxL : x.bid ∈ L.map (fun c => c.bid)
      · rw [if_pos hxL, if_pos (List.mem_cons_of_mem _ hxL)]
      · rw [if_neg hxL, if_neg ?_]
        intro hmem'
        rcases List.mem_cons.mp hmem' with h | h
        · exact hxb (beq_iff_eq.mpr h)
        · exact hxL h

/-- Specialisation: the work list is a `filter` of the table itself, so the
fold rewrites exactly the rows satisfying the filter. -/
theorem foldl_updateById_filter (g : BetR → BetR → BetR)
    (hg : ∀ b x, (g b x).bid = x.bid) (p : BetR → Bool) (tbl : List BetR)
    (hnd : (tbl.map (fun b => b.bid)).Nodup) :
    (tbl.filter p).foldl
        (fun t b => t.map (fun x => if x.bid == b.bid then g b x else x)) tbl
      = tbl.map (fun x => if p x then g x x else x) := by
  have hLnd : ((tbl.filter p).map (fun b => b.bid)).Nodup :=
    hnd.sublist ((tbl.filter_sublist).map _)
  have hmem : ∀ b ∈ tbl.filter p, b ∈ tbl := fun b hb => List.mem_of_mem_filter hb
  rw [foldl_updateById g hg (tbl.filter p) tbl hnd hLnd hmem]
  refine List.map_congr_left ?_
  intro x hx
  have hiff : (x.bid ∈ (tbl.filter p).map (fun b => b.bid)) ↔ p x = true := by
    constructor
    · intro hmem'
      obtain ⟨y, hy, hybid⟩ := List.mem_map.mp hmem'
      have hymem := List.mem_of_mem_filter hy
      have hyeq : y = x := List.inj_on_of_nodup_map hnd hymem hx hybid
      have hpy := (List.mem_filter.mp hy).2
      rwa [hyeq] at hpy
    · intro hp
      exact List.mem_map_of_mem _ (List.mem_filter.mpr ⟨hx, hp⟩)
  by_cases hp : p x = true
  · rw [if_pos (hiff.mpr hp), if_pos hp]
  · rw [if_neg (fun hc => hp (hiff.mp hc)), if_neg hp]

/-- The bets table after a successful settlement loop is the fold of the
per-bet `UPDATE`s. -/
theorem settleLoop_bets (S : SettingsR) (isL : Bool) (sz oe : String) (tot : Nat)
    (L : List BetR) : ∀ (st : DB) (hw : Bool) (st' : DB) (hw' : Bool),
    settleLoop S isL sz oe tot L st hw = some (st', hw') →
    st'.bets = L.foldl (fun t b =>
      t.map (fun x => if x.bid == b.bid then
        { x with
          result := some (settleOne S isL sz oe tot b).1
          payout := (settleOne S isL sz oe tot b).2 } else x)) st.bets := by
  induction L with
  | nil =>
    intro st hw st' hw' h
    unfold settleLoop at h
    simp only [Option.some.injEq, Prod.mk.injEq] at h
    obtain ⟨h1, -⟩ := h
    subst h1
    rfl
  | cons b rest ih =>
    intro st hw st' hw' h
    unfold settleLoop at h
    dsimp only at h
    split at h
    · split at h
      · exact Option.noConfusion h
      · have hres := ih _ _ _ _ h
        exact hres
    · have hres := ih _ _ _ _ h
      exact hres

/-- C5: for every settlement of a round whose three dice are all equal (a
triple), the bets table afterwards is the original table with exactly the
active bets of that round rewritten: a `豹子` (triple) bet gets result
`win` and payout `stake × odds_baozi`, and every other active bet of the
round — in particular size/parity bets whose side matches the outcome —
gets result `lose` and payout 0; bets of other rounds and non-active bets
are untouched. -/
theorem C5_triple_override (st : DB) (rid : String) (d1 d2 d3 : Nat) (st' : DB) (hw : Bool)
    (hnd : (st.bets.map (fun b => b.bid)).Nodup)
    (h12 : d1 = d2) (h23 : d2 = d3)
    (hs : settle_bets st rid d1 d2 d3 = some (st', hw)) :
    st'.bets = st.bets.map (fun b =>
      if b.round_id == rid && b.status == "active" then
        (if b.bet_type == "豹子" then
          { b with result := some "win", payout := b.amount * st.settings.odds_baozi }
         else { b with result := some "lose", payout := 0 })
      else b) := by
  have hisL : (d1 == d2 && d2 == d3) = true := by
    subst h12
    subst h23
    simp
  unfold settle_bets at hs
  dsimp only at hs
  split at hs
  · rename_i hfil
    simp only [Option.some.injEq, Prod.mk.injEq] at hs
    obtain ⟨h1, -⟩ := hs
    subst h1
    have hnone : ∀ b ∈ st.bets, ¬ (b.round_id == rid && b.status == "active") = true := by
      rw [← List.filter_eq_nil_iff]
      exact hfil
    symm
    have hid : ∀ b ∈ st.bets,
        (if b.round_id == rid && b.status == "active" then
          (if b.bet_type == "豹子" then
            { b with result := some "win", payout := b.amount * st.settings.odds_baozi }
           else { b with result := some "lose", payout := 0 })
         else b) = b := by
      intro b hb
      rw [if_neg (hnone b hb)]
    rw [List.map_congr_left hid, List.map_id']
  · have hb := settleLoop_bets _ _ _ _ _ _ _ _ _ _ hs
    have hfold := foldl_updateById_filter
      (fun b x => { x with
        result := some (settleOne st.settings (d1 == d2 && d2 == d3)
          (if d1 + d2 + d3 > 10 then "大" else "小")
          (if ((d1 + d2 + d3) % 2 == 1) = true then "单" else "双") (d1 + d2 + d3) b).1
        payout := (settleOne st.settings (d1 == d2 && d2 == d3)
          (if d1 + d2 + d3 > 10 then "大" else "小")
          (if ((d1 + d2 + d3) % 2 == 1) = true then "单" else "双") (d1 + d2 + d3) b).2 })
      (fun b x => rfl)
      (fun b => b.round_id == rid && b.status == "active") st.bets hnd
    rw [hb, hfold]
    refine List.map_congr_left ?_
    intro x hx
    by_cases hpx : (x.round_id == rid && x.status == "active") = true
    · rw [if_pos hpx, if_pos hpx]
      by_cases hbao : (x.bet_type == "豹子") = true
      · simp [settleOne, hisL, hbao]
      · simp [settleOne, hisL, hbao]
    · rw [if_neg hpx, if_neg hpx]

/-- A round with a triple-category bet of stake 1000 and a size bet whose
side (`小`) matches the triple outcome (2,2,2), for the C5 witness. -/
def c5DB : DB :=
  ⟨[⟨1, 100, some "alice", 7, 0, false, false⟩, ⟨2, 200, some "bob", 7, 0, false, false⟩],
   [⟨1, 1, "20260101001", "豹子", "", 1000, "active", none, 0⟩,
    ⟨2, 2, "20260101001", "小", "", 500, "active", none, 0⟩],
   [⟨"20260101001", "20260101", none, none, "open"⟩],
   [], defaultSettings, 3, 3⟩

/-- The settled state of the C5 witness. -/
def c5Out : DB := ((settle_bets c5DB "20260101001" 2 2 2).getD (c5DB, false)).1

theorem C5_witness :
    (c5DB.bets.map (fun b => b.bid)).Nodup ∧
    c5Out.bets = c5DB.bets.map (fun b =>
      if b.round_id == "20260101001" && b.status == "active" then
        (if b.bet_type == "豹子" then
          { b with result := some "win", payout := b.amount * c5DB.settings.odds_baozi }
         else { b with result := some "lose", payout := 0 })
      else b) ∧
    c5Out.bets = [⟨1, 1, "20260101001", "豹子", "", 1000, "active", some "win", 11000⟩,
      ⟨2, 2, "20260101001", "小", "", 500, "active", some "lose", 0⟩] :=
  ⟨by decide,
   C5_triple_override c5DB "20260101001" 2 2 2 c5Out true (by decide) rfl rfl (by decide),
   by decide⟩

/-- When `get_active_round` returns a round id and round ids are unique
(the `rounds.id` primary key), the by-id lookup finds that round and its
status is `open`. -/
theorem active_round_found (st : DB) (rid : String)
    (h : get_active_round st = some rid)
    (hnd : (st.rounds.map (fun r => r.rid)).Nodup) :
    ∃ rd, st.rounds.find? (fun r => r.rid == rid) = some rd ∧ rd.status = "open" := by
  unfold get_active_round at h
  cases hf : st.rounds.reverse.find? (fun r => r.status == "open") with
  | none =>
    rw [hf] at h
    exact Option.noConfusion h
  | some r0 =>
    rw [hf] at h
    simp only [Option.map_some', Option.some.injEq] at h
    subst h
    have hr0mem : r0 ∈ st.rounds := List.mem_reverse.mp (List.mem_of_find?_eq_some hf)
    have hr0open : (r0.status == "open") = true := by
      have := List.find?_some hf
      simpa using this
    cases hfd : st.rounds.find? (fun r => r.rid == r0.rid) with
    | none =>
      rw [List.find?_eq_none] at hfd
      exact absurd (by simp : (r0.rid == r0.rid) = true) (hfd r0 hr0mem)
    | some rd =>
      have hrdmem := List.mem_of_find?_eq_some hfd
      have hrdbid : (rd.rid == r0.rid) = true := by
        have := List.find?_some hfd
        simpa using this
      have hrd : rd = r0 :=
        List.inj_on_of_nodup_map hnd hrdmem hr0mem (beq_iff_eq.mp hrdbid)
      refine ⟨rd, rfl, ?_⟩
      rw [hrd]
      exact beq_iff_eq.mp hr0open

/-- C6: for a registered user with active bets (of positive total stake) in
the open round, the all-active cancellation (`取消` with no replied
message) rewrites exactly those bets to status `cancelled`, appends one
`refund` log entry for the sum of their stakes, and increases exactly that
user's balance by that sum; and when no round is open, cancellation changes
no state at all. -/
theorem C6_cancellation_refund (st : DB) (tg : Nat) :
    (∀ (u : UserR) (rid : String),
      findUserByTg st tg = some u →
      get_active_round st = some rid →
      (st.rounds.map (fun r => r.rid)).Nodup →
      (st.bets.map (fun b => b.bid)).Nodup →
      activeBetsOf st u.uid rid ≠ [] →
      0 < ((activeBetsOf st u.uid rid).map (fun b => (b.amount : Int))).sum →
      cancel_bet st tg none =
        { st with
          bets := st.bets.map (fun b =>
            if b.user_id == u.uid && b.round_id == rid && b.status == "active" then
              { b with status := "cancelled" }
            else b)
          balance_logs := st.balance_logs ++
            [⟨u.uid, ((activeBetsOf st u.uid rid).map (fun b => (b.amount : Int))).sum,
              "refund", 0⟩]
          users := st.users.map (fun v =>
            if v.uid == u.uid then
              { v with balance := v.balance +
                  ((activeBetsOf st u.uid rid).map (fun b => (b.amount : Int))).sum }
            else v) }) ∧
    (get_active_round st = none → cancel_bet st tg none = st) := by
  constructor
  · intro u rid hu hact hrnd hbnd hmine hpos
    obtain ⟨rd, hfd, hopen⟩ := active_round_found st rid hact hrnd
    unfold cancel_bet
    rw [hu, hact]
    dsimp only
    rw [hfd]
    dsimp only
    rw [if_neg (by rw [hopen]; simp)]
    rw [if_neg hmine, if_pos hpos]
    have hfold := foldl_updateById_filter
      (fun b x => { x with status := "cancelled" })
      (fun b x => rfl)
      (fun b => b.user_id == u.uid && b.round_id == rid && b.status == "active") st.bets hbnd
    unfold activeBetsOf at hfold ⊢
    rw [hfold]
  · intro hnone
    unfold cancel_bet
    cases hu : findUserByTg st tg with
    | none => rfl
    | some u =>
      rw [hnone]

/-- A user with two active bets totalling 4500 in the open round. -/
def c6DB : DB :=
  ⟨[⟨1, 100, some "alice", 7, 500, false, false⟩],
   [⟨1, 1, "20260101001", "大", "", 3000, "active", none, 0⟩,
    ⟨2, 1, "20260101001", "和值", "11", 1500, "active", none, 0⟩],
   [⟨"20260101001", "20260101", none, none, "open"⟩],
   [], defaultSettings, 2, 3⟩

theorem C6_witness :
    (cancel_bet c6DB 100 none =
      { c6DB with
        bets := c6DB.bets.map (fun b =>
          if b.user_id == 1 && b.round_id == "20260101001" && b.status == "active" then
            { b with status := "cancelled" }
          else b)
        balance_logs := c6DB.balance_logs ++
          [⟨1, ((activeBetsOf c6DB 1 "20260101001").map (fun b => (b.amount : Int))).sum,
            "refund", 0⟩]
        users := c6DB.users.map (fun v =>
          if v.uid == 1 then
            { v with balance := v.balance +
                ((activeBetsOf c6DB 1 "20260101001").map (fun b => (b.amount : Int))).sum }
          else v) }) ∧
    (cancel_bet c6DB 100 none).users = [⟨1, 100, some "alice", 7, 5000, false, false⟩] ∧
    cancel_bet closedRoundDB 100 none = closedRoundDB :=
  ⟨(C6_cancellation_refund c6DB 100).1 ⟨1, 100, some "alice", 7, 500, false, false⟩
      "20260101001" (by decide) (by decide) (by decide) (by decide) (by decide) (by decide),
   by decide,
   (C6_cancellation_refund closedRoundDB 100).2 (by decide)⟩

/-! ## The ledger invariant -/

/-- Sum of the log amounts booked to user `i`. -/
def logSum (logs : List LogR) (i : Nat) : Int :=
  ((logs.filter (fun lg => lg.user_id == i)).map (fun lg => lg.amount)).sum

/-- Sum of user `i`'s `balance_logs` amounts. -/
def userLogSum (st : DB) (i : Nat) : Int :=
  logSum st.balance_logs i

/-- The ledger invariant: every user's cached balance equals the sum of
that user's `balance_logs` amounts. -/
def Ledger (st : DB) : Prop :=
  ∀ u ∈ st.users, u.balance = userLogSum st u.uid

/-- The inductive invariant: the ledger equation together with the
structural facts that make it self-propagating — unique user ids, ids and
log references below the id counter, and non-negative balances. -/
def Inv (st : DB) : Prop :=
  (st.users.map (fun u => u.uid)).Nodup ∧
  (∀ u ∈ st.users, u.uid < st.nextUserId) ∧
  (∀ lg ∈ st.balance_logs, lg.user_id < st.nextUserId) ∧
  (∀ u ∈ st.users, 0 ≤ u.balance) ∧
  Ledger st

theorem logSum_append (l1 l2 : List LogR) (i : Nat) :
    logSum (l1 ++ l2) i = logSum l1 i + logSum l2 i := by
  unfold logSum
  rw [List.filter_append, List.map_append, List.sum_append]

theorem logSum_single (j : Nat) (a : Int) (t : String) (o : Nat) (i : Nat) :
    logSum [⟨j, a, t, o⟩] i = if j = i then a else 0 := by
  unfold logSum
  by_cases h : j = i
  · subst h
    simp
  · simp [h]

theorem logSum_of_all_eq (L : List LogR) (i : Nat) (h : ∀ lg ∈ L, lg.user_id = i) :
    logSum L i = (L.map (fun lg => lg.amount)).sum := by
  unfold logSum
  rw [List.filter_eq_self.mpr]
  intro lg hlg
  exact beq_iff_eq.mpr (h lg hlg)

theorem logSum_of_none (L : List LogR) (i : Nat) (h : ∀ lg ∈ L, ¬ lg.user_id = i) :
    logSum L i = 0 := by
  unfold logSum
  rw [List.filter_eq_nil_iff.mpr]
  · rfl
  · intro lg hlg
    simpa using h lg hlg

/-- `Inv` only reads `users`, `balance_logs` and `nextUserId`. -/
theorem inv_congr (st st' : DB) (hu : st'.users = st.users)
    (hl : st'.balance_logs = st.balance_logs) (hn : st'.nextUserId = st.nextUserId)
    (h : Inv st) : Inv st' := by
  obtain ⟨h1, h2, h3, h4, h5⟩ := h
  unfold Inv Ledger userLogSum at *
  rw [hu, hl, hn]
  exact ⟨h1, h2, h3, h4, h5⟩

/-- One balance write `WHERE id = t`, together with freshly appended log
entries that are all booked to `t` and sum to the balance change,
preserves the invariant. -/
theorem inv_delta (st st' : DB) (t : Nat) (g : UserR → UserR) (newlogs : List LogR)
    (hu : st'.users = st.users.map (fun v => if v.uid == t then g v else v))
    (hl : st'.balance_logs = st.balance_logs ++ newlogs)
    (hn : st'.nextUserId = st.nextUserId)
    (hgid : ∀ v, (g v).uid = v.uid)
    (hbal : ∀ v ∈ st.users, v.uid = t → (g v).balance = v.balance + logSum newlogs t)
    (hnn : ∀ v ∈ st.users, v.uid = t → 0 ≤ (g v).balance)
    (hlg : ∀ lg ∈ newlogs, lg.user_id < st.nextUserId)
    (hother : ∀ i, ¬ i = t → logSum newlogs i = 0)
    (h : Inv st) : Inv st' := by
  obtain ⟨h1, h2, h3, h4, h5⟩ := h
  unfold Ledger userLogSum at h5
  have hstep_uid : ∀ v : UserR, ((fun v => if v.uid == t then g v else v) v).uid = v.uid := by
    intro v
    dsimp only
    split
    · exact hgid v
    · rfl
  refine ⟨?_, ?_, ?_, ?_, ?_⟩
  · rw [hu, List.map_map]
    have hcong : st.users.map (fun v => ((fun v => if v.uid == t then g v else v) v).uid)
        = st.users.map (fun v => v.uid) :=
      List.map_congr_left (fun v _ => hstep_uid v)
    rw [show ((fun u => u.uid) ∘ fun v => if v.uid == t then g v else v)
        = fun v => ((fun v => if v.uid == t then g v else v) v).uid from rfl, hcong]
    exact h1
  · intro u hu'
    rw [hu] at hu'
    obtain ⟨v, hv, rfl⟩ := List.mem_map.mp hu'
    rw [hn, hstep_uid v]
    exact h2 v hv
  · intro lg hlg'
    rw [hl] at hlg'
    rw [hn]
    rcases List.mem_append.mp hlg' with h' | h'
    · exact h3 lg h'
    · exact hlg lg h'
  · intro u hu'
    rw [hu] at hu'
    obtain ⟨v, hv, rfl⟩ := List.mem_map.mp hu'
    by_cases hvt : (v.uid == t) = true
    · rw [if_pos hvt]
      exact hnn v hv (beq_iff_eq.mp hvt)
    · rw [if_neg hvt]
      exact h4 v hv
  · unfold Ledger userLogSum
    intro u hu'
    rw [hu] at hu'
    obtain ⟨v, hv, rfl⟩ := List.mem_map.mp hu'
    rw [hl, logSum_append, hstep_uid v]
    by_cases hvt : (v.uid == t) = true
    · have hvteq := beq_iff_eq.mp hvt
      rw [if_pos hvt, hbal v hv hvteq, h5 v hv, hvteq]
    · rw [if_neg hvt, hother v.uid (fun hc => hvt (beq_iff_eq.mpr hc)), add_zero]
      exact h5 v hv

theorem logSum_cons (lg : LogR) (L : List LogR) (i : Nat) :
    logSum (lg :: L) i = (if lg.user_id = i then lg.amount else 0) + logSum L i := by
  unfold logSum
  by_cases h : lg.user_id = i
  · rw [List.filter_cons_of_pos (by simpa using h), List.map_cons, List.sum_cons, if_pos h]
  · rw [List.filter_cons_of_neg (by simpa using h), if_neg h, zero_add]

theorem sum_map_neg_cast (bets : List PBet) :
    (bets.map (fun b => -((b.pamount : Nat) : Int))).sum
      = -(((bets.map (fun b => b.pamount)).sum : Nat) : Int) := by
  induction bets with
  | nil => simp
  | cons b rest ih =>
    simp only [List.map_cons, List.sum_cons, ih]
    push_cast
    ring

/-- The `admin_clear` log entries appended for a user list book, to each
uid, minus that user's balance when positive and nothing otherwise. -/
theorem logSum_clear_map (users : List UserR) (oid : Nat) :
    ∀ (i : Nat), ((users.map (fun u => u.uid)).Nodup) →
    ∀ v ∈ users, v.uid = i →
    logSum ((users.filter (fun u => 0 < u.balance)).map
      (fun u => (⟨u.uid, -u.balance, "admin_clear", oid⟩ : LogR))) i =
    if 0 < v.balance then -v.balance else 0 := by
  induction users with
  | nil =>
    intro i _ v hv
    exact absurd hv (List.not_mem_nil v)
  | cons u rest ih =>
    intro i hnd v hv hvi
    rw [List.map_cons, List.nodup_cons] at hnd
    have hrest_zero : (∀ w ∈ rest, ¬ w.uid = i) →
        logSum ((rest.filter (fun w => 0 < w.balance)).map
          (fun w => (⟨w.uid, -w.balance, "admin_clear", oid⟩ : LogR))) i = 0 := by
      intro hno
      apply logSum_of_none
      intro lg hlg
      obtain ⟨w, hw, rfl⟩ := List.mem_map.mp hlg
      exact hno w (List.mem_of_mem_filter hw)
    by_cases hui : u.uid = i
    · have huv : u = v := by
        rcases List.mem_cons.mp hv with rfl | hvrest
        · rfl
        · exfalso
          apply hnd.1
          rw [hui, ← hvi]
          exact List.mem_map_of_mem _ hvrest
      have hnorest : ∀ w ∈ rest, ¬ w.uid = i := by
        intro w hw hc
        apply hnd.1
        rw [hui, ← hc]
        exact List.mem_map_of_mem _ hw
      by_cases hub : (0 : Int) < u.balance
      · rw [List.filter_cons_of_pos (by simpa using hub), List.map_cons, logSum_cons,
          if_pos hui, hrest_zero hnorest, ← huv, if_pos hub]
        ring
      · rw [List.filter_cons_of_neg (by simpa using hub), hrest_zero hnorest, ← huv,
          if_neg hub]
    · have hvrest : v ∈ rest := by
        rcases List.mem_cons.mp hv with rfl | h'
        · exact absurd hvi hui
        · exact h'
      by_cases hub : (0 : Int) < u.balance
      · rw [List.filter_cons_of_pos (by simpa using hub), List.map_cons, logSum_cons,
          if_neg hui, zero_add]
        exact ih i hnd.2 v hvrest hvi
      · rw [List.filter_cons_of_neg (by simpa using hub)]
        exact ih i hnd.2 v hvrest hvi

theorem inv_start (st : DB) (tg : Nat) (un : Option String) (ch : Nat)
    (h : Inv st) : Inv (start st tg un ch) := by
  obtain ⟨h1, h2, h3, h4, h5⟩ := h
  unfold Ledger userLogSum at h5
  have hfresh : logSum st.balance_logs st.nextUserId = 0 := by
    apply logSum_of_none
    intro lg hlg hc
    have := h3 lg hlg
    omega
  unfold start
  cases hf : findUserByTg st tg with
  | some u => exact ⟨h1, h2, h3, h4, h5⟩
  | none =>
    dsimp only
    by_cases hlen : (st.users ++ [(⟨st.nextUserId, tg, un, ch, 0, false, false⟩ : UserR)]).length = 1
    · rw [if_pos hlen]
      have husers : st.users = [] := by
        rw [List.length_append, List.length_singleton] at hlen
        exact List.length_eq_zero.mp (by omega)
      rw [husers, List.nil_append]
      have hmap : (List.map
          (fun v => if (v.tgid == tg) = true then
            { v with is_admin := true, is_super_admin := true } else v)
          [(⟨st.nextUserId, tg, un, ch, 0, false, false⟩ : UserR)])
          = [(⟨st.nextUserId, tg, un, ch, 0, true, true⟩ : UserR)] := by
        simp
      rw [hmap]
      refine ⟨?_, ?_, ?_, ?_, ?_⟩
      · simp
      · intro u hu'
        rw [List.mem_singleton] at hu'
        subst hu'
        dsimp only
        omega
      · intro lg hlg
        dsimp only
        have := h3 lg hlg
        omega
      · intro u hu'
        rw [List.mem_singleton] at hu'
        subst hu'
        exact le_refl 0
      · unfold Ledger userLogSum
        intro u hu'
        rw [List.mem_singleton] at hu'
        subst hu'
        dsimp only
        rw [hfresh]
    · rw [if_neg hlen]
      refine ⟨?_, ?_, ?_, ?_, ?_⟩
      · rw [List.map_append, List.map_singleton, List.nodup_append]
        refine ⟨h1, List.nodup_singleton _, ?_⟩
        intro a ha hb
        rw [List.mem_singleton] at hb
        rw [hb] at ha
        obtain ⟨v, hv, hveq⟩ := List.mem_map.mp ha
        have hvlt := h2 v hv
        have huid : v.uid = st.nextUserId := hveq
        exact absurd huid (by omega)
      · intro u hu'
        try dsimp only at hu' ⊢
        rcases List.mem_append.mp hu' with h' | h'
        · have := h2 u h'
          omega
        · rw [List.mem_singleton] at h'
          subst h'
          try dsimp only
          omega
      · intro lg hlg
        try dsimp only at hlg ⊢
        have := h3 lg hlg
        omega
      · intro u hu'
        try dsimp only at hu'
        rcases List.mem_append.mp hu' with h' | h'
        · exact h4 u h'
        · rw [List.mem_singleton] at h'
          subst h'
          exact le_refl 0
      · unfold Ledger userLogSum
        intro u hu'
        try dsimp only at hu' ⊢
        rcases List.mem_append.mp hu' with h' | h'
        · exact h5 u h'
        · rw [List.mem_singleton] at h'
          subst h'
          exact hfresh.symm

theorem inv_adjust_balance (st : DB) (opTg targetId : Nat) (amount : Int)
    (h : Inv st) : Inv (adjust_balance st opTg targetId amount) := by
  unfold adjust_balance
  cases hop : findUserByTg st opTg with
  | none => exact h
  | some op =>
    dsimp only
    split
    · exact h
    · cases htu : findUserById st targetId with
      | none => exact h
      | some tu =>
        dsimp only
        split
        · exact h
        · rename_i hguard
          have htumem : tu ∈ st.users := List.mem_of_find?_eq_some htu
          have htuid : tu.uid = targetId := by
            have := List.find?_some htu
            simpa using this
          have hb0 : (0 : Int) ≤ tu.balance := h.2.2.2.1 tu htumem
          refine inv_delta st _ targetId
            (fun v => { v with balance := tu.balance + amount }) _
            rfl rfl rfl (fun v => rfl) ?_ ?_ ?_ ?_ h
          · intro v hv hvt
            have hveq : v = tu :=
              List.inj_on_of_nodup_map h.1 hv htumem (by rw [hvt, htuid])
            rw [logSum_single, if_pos rfl, hveq]
          · intro v hv hvt
            dsimp only
            omega
          · intro lg hlg
            rw [List.mem_singleton] at hlg
            subst hlg
            rw [← htuid]
            exact h.2.1 tu htumem
          · intro i hi
            rw [logSum_single, if_neg (fun hc => hi hc.symm)]

theorem inv_deduct_by_username (st : DB) (opTg : Nat) (un : String) (amount : Nat)
    (h : Inv st) : Inv (deduct_by_username st opTg un amount) := by
  unfold deduct_by_username
  cases hop : findUserByTg st opTg with
  | none => exact h
  | some op =>
    dsimp only
    split
    · exact h
    · split
      · exact h
      · cases htu : (match st.users.find? (fun v => v.uname == some un) with
          | some u => some u
          | none =>
            match un.toNat? with
            | some n => st.users.find? (fun v => v.tgid == n)
            | none => none) with
        | none => exact h
        | some tu =>
          dsimp only
          split
          · exact h
          · rename_i hguard
            have htumem : tu ∈ st.users := by
              split at htu
              · rename_i u0 hfind
                simp only [Option.some.injEq] at htu
                subst htu
                exact List.mem_of_find?_eq_some hfind
              · split at htu
                · exact List.mem_of_find?_eq_some htu
                · exact Option.noConfusion htu
            refine inv_delta st _ tu.uid
              (fun v => { v with balance := tu.balance - (amount : Int) }) _
              rfl rfl rfl (fun v => rfl) ?_ ?_ ?_ ?_ h
            · intro v hv hvt
              have hveq : v = tu := List.inj_on_of_nodup_map h.1 hv htumem hvt
              rw [logSum_single, if_pos rfl, hveq]
              ring
            · intro v hv hvt
              dsimp only
              omega
            · intro lg hlg
              rw [List.mem_singleton] at hlg
              subst hlg
              exact h.2.1 tu htumem
            · intro i hi
              rw [logSum_single, if_neg (fun hc => hi hc.symm)]

theorem inv_clear_all_balances (st : DB) (opTg : Nat) (h : Inv st) :
    Inv (clear_all_balances st opTg) := by
  unfold clear_all_balances
  cases hop : findUserByTg st opTg with
  | none => exact h
  | some op =>
    dsimp only
    split
    · exact h
    · obtain ⟨h1, h2, h3, h4, h5⟩ := h
      unfold Ledger userLogSum at h5
      refine ⟨?_, ?_, ?_, ?_, ?_⟩
      · rw [List.map_map]
        have hcong : st.users.map ((fun u => u.uid) ∘ fun u : UserR => { u with balance := (0 : Int) })
            = st.users.map (fun u => u.uid) :=
          List.map_congr_left (fun v _ => rfl)
        rw [hcong]
        exact h1
      · intro u hu'
        obtain ⟨v, hv, rfl⟩ := List.mem_map.mp hu'
        exact h2 v hv
      · intro lg hlg'
        rcases List.mem_append.mp hlg' with h' | h'
        · exact h3 lg h'
        · obtain ⟨w, hw, rfl⟩ := List.mem_map.mp h'
          exact h2 w (List.mem_of_mem_filter hw)
      · intro u hu'
        obtain ⟨v, hv, rfl⟩ := List.mem_map.mp hu'
        exact le_refl 0
      · unfold Ledger userLogSum
        intro u hu'
        obtain ⟨v, hv, rfl⟩ := List.mem_map.mp hu'
        dsimp only
        rw [logSum_append, logSum_clear_map st.users op.uid v.uid h1 v hv rfl, ← h5 v hv]
        by_cases hb : (0 : Int) < v.balance
        · rw [if_pos hb]
          ring
        · rw [if_neg hb]
          have := h4 v hv
          omega

theorem inv_settleLoop (S : SettingsR) (isL : Bool) (sz oe : String) (tot : Nat)
    (L : List BetR) : ∀ (st : DB) (hw : Bool) (st' : DB) (hw' : Bool),
    settleLoop S isL sz oe tot L st hw = some (st', hw') → Inv st → Inv st' := by
  induction L with
  | nil =>
    intro st hw st' hw' h hInv
    unfold settleLoop at h
    simp only [Option.some.injEq, Prod.mk.injEq] at h
    obtain ⟨h1, -⟩ := h
    subst h1
    exact hInv
  | cons b rest ih =>
    intro st hw st' hw' h hInv
    unfold settleLoop at h
    dsimp only at h
    split at h
    · split at h
      · exact Option.noConfusion h
      · rename_i us hcu
        unfold creditUser at hcu
        split at hcu
        · exact Option.noConfusion hcu
        · rename_i u0 hfu
          simp only [Option.some.injEq] at hcu
          subst hcu
          refine ih _ _ _ _ h ?_
          have hu0mem : u0 ∈ st.users := List.mem_of_find?_eq_some hfu
          have hu0id : u0.uid = b.user_id := by
            have := List.find?_some hfu
            simpa using this
          have hInv1 : Inv { st with
              bets := updBetRP st.bets b.bid (settleOne S isL sz oe tot b).1
                (settleOne S isL sz oe tot b).2 } :=
            inv_congr st _ rfl rfl rfl hInv
          refine inv_delta _ _ b.user_id
            (fun v => { v with
              balance := u0.balance + ((settleOne S isL sz oe tot b).2 : Int) }) _
            rfl rfl rfl (fun v => rfl) ?_ ?_ ?_ ?_ hInv1
          · intro v hv hvt
            have hveq : v = u0 :=
              List.inj_on_of_nodup_map hInv.1 hv hu0mem (by rw [hvt, hu0id])
            rw [logSum_single, if_pos rfl, hveq]
          · intro v hv hvt
            have hnn0 := hInv.2.2.2.1 u0 hu0mem
            dsimp only
            omega
          · intro lg hlg
            rw [List.mem_singleton] at hlg
            subst hlg
            have := hInv.2.1 u0 hu0mem
            dsimp only
            omega
          · intro i hi
            rw [logSum_single, if_neg (fun hc => hi hc.symm)]
    · refine ih _ _ _ _ h (inv_congr st _ rfl rfl rfl hInv)

theorem inv_handle_dice (st : DB) (tg d1 d2 d3 : Nat) (now : String) (h : Inv st) :
    Inv (handle_dice st tg d1 d2 d3 now) := by
  unfold handle_dice
  cases hact : get_active_round st with
  | none => exact h
  | some rid =>
    dsimp only
    split
    · exact h
    · cases hdu : findUserByTg st tg with
      | none => exact h
      | some du =>
        dsimp only
        cases hrd : st.rounds.find? (fun r => r.rid == rid) with
        | none => exact h
        | some rd =>
          dsimp only
          split
          · exact h
          · split
            · exact h
            · split
              · exact h
              · rename_i p hset
                unfold settle_bets at hset
                dsimp only at hset
                split at hset
                · simp only [Option.some.injEq] at hset
                  subst hset
                  exact inv_congr st _ rfl rfl rfl h
                · exact inv_settleLoop _ _ _ _ _ _ _ _ _ _ hset
                    (inv_congr st _ rfl rfl rfl h)

/-- The reply-mode cancellation fold books every refund entry to the
cancelling user and keeps the running refund equal to the booked sum. -/
theorem cancelFold_spec (u : UserR) (rid : String) (intents : List PBet) :
    ∀ acc : List BetR × Int × List LogR,
    (∀ lg ∈ acc.2.2, lg.user_id = u.uid) →
    acc.2.1 = ((acc.2.2).map (fun lg => lg.amount)).sum →
    (∀ lg ∈ (intents.foldl (cancelBetStep u rid) acc).2.2, lg.user_id = u.uid) ∧
    (intents.foldl (cancelBetStep u rid) acc).2.1 =
      (((intents.foldl (cancelBetStep u rid) acc).2.2).map (fun lg => lg.amount)).sum := by
  induction intents with
  | nil =>
    intro acc h1 h2
    exact ⟨h1, h2⟩
  | cons pb rest ih =>
    intro acc h1 h2
    rw [List.foldl_cons]
    apply ih
    · unfold cancelBetStep
      split
      · exact h1
      · rename_i br hfind
        intro lg hlg
        dsimp only at hlg
        rcases List.mem_append.mp hlg with h' | h'
        · exact h1 lg h'
        · rw [List.mem_singleton] at h'
          subst h'
          rfl
    · unfold cancelBetStep
      split
      · exact h2
      · rename_i br hfind
        dsimp only
        rw [List.map_append, List.sum_append, List.map_singleton, List.sum_singleton, h2]

theorem inv_cancel_bet (st : DB) (tg : Nat) (replied : Option String) (h : Inv st) :
    Inv (cancel_bet st tg replied) := by
  unfold cancel_bet
  cases hu : findUserByTg st tg with
  | none => exact h
  | some u =>
    dsimp only
    cases hact : get_active_round st with
    | none => exact h
    | some rid =>
      dsimp only
      cases hrd : st.rounds.find? (fun r => r.rid == rid) with
      | none => exact h
      | some rd =>
        dsimp only
        split
        · exact h
        · have humem : u ∈ st.users := List.mem_of_find?_eq_some hu
          have hult : u.uid < st.nextUserId := h.2.1 u humem
          cases replied with
          | some rtext =>
            dsimp only
            cases hp : parse_bet rtext with
            | none => exact h
            | some intents =>
              dsimp only
              split
              · rename_i hpos
                have hspec := cancelFold_spec u rid intents (st.bets, 0, [])
                  (fun lg hlg => absurd hlg (List.not_mem_nil lg)) (by simp)
                refine inv_delta st _ u.uid
                  (fun v => { v with
                    balance := v.balance +
                      (intents.foldl (cancelBetStep u rid) (st.bets, 0, [])).2.1 }) _
                  rfl rfl rfl (fun v => rfl) ?_ ?_ ?_ ?_ h
                · intro v hv hvt
                  dsimp only
                  rw [logSum_of_all_eq _ _ hspec.1, ← hspec.2]
                · intro v hv hvt
                  have := h.2.2.2.1 v hv
                  dsimp only
                  omega
                · intro lg hlg
                  rw [hspec.1 lg hlg]
                  exact hult
                · intro i hi
                  apply logSum_of_none
                  intro lg hlg hc
                  exact hi (hc.symm.trans (hspec.1 lg hlg))
              · exact h
          | none =>
            dsimp only
            split
            · exact h
            · split
              · rename_i hpos
                refine inv_delta st _ u.uid
                  (fun v => { v with
                    balance := v.balance +
                      ((activeBetsOf st u.uid rid).map (fun b => (b.amount : Int))).sum }) _
                  rfl rfl rfl (fun v => rfl) ?_ ?_ ?_ ?_ h
                · intro v hv hvt
                  dsimp only
                  rw [logSum_single, if_pos rfl]
                · intro v hv hvt
                  have := h.2.2.2.1 v hv
                  dsimp only
                  omega
                · intro lg hlg
                  rw [List.mem_singleton] at hlg
                  subst hlg
                  exact hult
                · intro i hi
                  rw [logSum_single, if_neg (fun hc => hi hc.symm)]
              · exact h

theorem sum_map_neg (l : List Int) : (l.map (fun x => -x)).sum = -l.sum := by
  induction l with
  | nil => simp
  | cons a rest ih =>
    simp only [List.map_cons, List.sum_cons, ih]
    ring

theorem inv_process_bet (st : DB) (tg : Nat) (text today : String) (h : Inv st) :
    Inv (process_bet st tg text today).1 := by
  unfold process_bet
  dsimp only
  split
  · exact h
  · split
    · exact h
    · cases hdu : findUserByTg st tg with
      | none => exact h
      | some du =>
        dsimp only
        cases hrr : resolveRound st today with
        | none => exact h
        | some pr =>
          obtain ⟨st1, rid⟩ := pr
          dsimp only
          have hInv1 : Inv st1 := by
            obtain ⟨hu2, hb2, hl2, -, hn2, -⟩ := resolveRound_components _ _ _ _ hrr
            exact inv_congr st st1 hu2 hl2 hn2 h
          have hdumem : du ∈ st.users := List.mem_of_find?_eq_some hdu
          have hdumem1 : du ∈ st1.users := by
            obtain ⟨hu2, -⟩ := resolveRound_components _ _ _ _ hrr
            rw [hu2]
            exact hdumem
          cases hp : parse_bet text with
          | none => exact hInv1
          | some bets =>
            dsimp only
            split
            · exact hInv1
            · split
              · exact hInv1
              · split
                · exact hInv1
                · rename_i hbalguard
                  split
                  · exact hInv1
                  · have hlt : du.uid < st1.nextUserId := hInv1.2.1 du hdumem1
                    refine inv_delta st1 _ du.uid
                      (fun v => { v with
                        balance := du.balance -
                          (bets.map (fun b => ((b.pamount : Nat) : Int))).sum })
                      (bets.map (fun b => (⟨du.uid, -((b.pamount : Nat) : Int), "bet", 0⟩ : LogR)))
                      rfl rfl rfl (fun v => rfl) ?_ ?_ ?_ ?_ hInv1
                    · intro v hv hvt
                      have hveq : v = du :=
                        List.inj_on_of_nodup_map hInv1.1 hv hdumem1 hvt
                      have hall : ∀ lg ∈ bets.map
                          (fun b => (⟨du.uid, -((b.pamount : Nat) : Int), "bet", 0⟩ : LogR)),
                          lg.user_id = du.uid := by
                        intro lg hlg
                        obtain ⟨b, hb, rfl⟩ := List.mem_map.mp hlg
                        rfl
                      rw [logSum_of_all_eq _ _ hall, hveq]
                      have hmm : (bets.map
                          (fun b => (⟨du.uid, -((b.pamount : Nat) : Int), "bet", 0⟩ : LogR))).map
                          (fun lg => lg.amount)
                          = (bets.map (fun b => ((b.pamount : Nat) : Int))).map
                              (fun x => -x) := by
                        rw [List.map_map, List.map_map]
                        rfl
                      rw [hmm, sum_map_neg]
                      ring
                    · intro v hv hvt
                      dsimp only
                      omega
                    · intro lg hlg
                      obtain ⟨b, hb, rfl⟩ := List.mem_map.mp hlg
                      exact hlt
                    · intro i hi
                      apply logSum_of_none
                      intro lg hlg hc
                      obtain ⟨b, hb, rfl⟩ := List.mem_map.mp hlg
                      exact hi hc.symm

theorem inv_applyOp (st : DB) (op : Op) (h : Inv st) : Inv (applyOp st op) := by
  cases op with
  | reg tg un ch => exact inv_start st tg un ch h
  | bet tg tx d => exact inv_process_bet st tg tx d h
  | dice tg a b c now => exact inv_handle_dice st tg a b c now h
  | cancel tg r => exact inv_cancel_bet st tg r h
  | adjust o t a => exact inv_adjust_balance st o t a h
  | kou o un a => exact inv_deduct_by_username st o un a h
  | qingchu o => exact inv_clear_all_balances st o h

theorem inv_applyOps (ops : List Op) : ∀ st : DB, Inv st → Inv (applyOps st ops) := by
  induction ops with
  | nil => intro st h; exact h
  | cons op rest ih =>
    intro st h
    exact ih _ (inv_applyOp st op h)

/-- C1: starting from any state satisfying the inductive invariant — in
particular a fresh database, where users are registered with balance 0 —
after any sequence of registrations, bet placements (`process_bet`),
settlements (`handle_dice`/`settle_bets`), cancellations (`cancel_bet`),
admin adjustments (`adjust_balance`, `deduct_by_username`) and balance
clearing (`clear_all_balances`), every user's cached balance equals the sum
of that user's `balance_logs` amounts. -/
theorem C1_ledger_invariant (st : DB) (ops : List Op) (h : Inv st) :
    ∀ u ∈ (applyOps st ops).users,
      u.balance = userLogSum (applyOps st ops) u.uid :=
  (inv_applyOps ops st h).2.2.2.2

/-- An event sequence exercising every balance-mutating handler. -/
def c1Ops : List Op :=
  [Op.reg 100 (some "alice") 7, Op.reg 200 (some "bob") 7,
   Op.adjust 100 1 10000, Op.adjust 100 2 5000,
   Op.bet 100 "大1000" "20260101", Op.bet 200 "11 2000" "20260101",
   Op.cancel 200 none, Op.bet 200 "豹子1000" "20260101",
   Op.dice 100 3 4 5 "t1",
   Op.kou 100 "bob" 500, Op.qingchu 100]

theorem C1_witness :
    ((applyOps emptyDB c1Ops).users.all
      (fun u => u.balance == userLogSum (applyOps emptyDB c1Ops) u.uid)) = true := by
  have hmain := C1_ledger_invariant emptyDB c1Ops
    (by unfold Inv Ledger userLogSum logSum; refine ⟨?_, ?_, ?_, ?_, ?_⟩ <;> simp [emptyDB])
  rw [List.all_eq_true]
  intro u hu
  exact beq_iff_eq.mpr (hmain u hu)

end ZuixinBot
